import Mathlib

/-!
Verification of the multi-level cache core of the `airavoiceagent` repository.

The definitions below are a shallow embedding of the Python sources under
`src/cache/` (`circuit_breaker.py`, `stats.py`, `redis_cache.py`,
`multi_level_cache.py`, `config.py`).  Wall-clock time (`time.time()`) and
retry delays are modelled as rational numbers; the value of an event's time
is an explicit argument of every operation that reads the clock in the
source.  Python `None` is modelled as `Value.null`; a function that can
raise is modelled as returning an `Option`, with `none` standing for the
raised exception.
-/

namespace AiraCache

/-- The three circuit-breaker states of `circuit_breaker.py`
(`Literal["CLOSED", "OPEN", "HALF_OPEN"]`). -/
inductive CBState where
  | CLOSED
  | OPEN
  | HALF_OPEN
deriving DecidableEq, Repr

/-- State of one `CircuitBreaker` instance (`circuit_breaker.py`, `__init__`).
The `name` field is used only for logging and is omitted. -/
structure CircuitBreaker where
  threshold : Nat
  timeout : ℤ
  failure_count : Nat
  last_failure_time : ℤ
  last_success_time : ℤ
  state : CBState
deriving DecidableEq, Repr

/-- `CircuitBreaker.__init__`: counters zeroed, state `CLOSED`;
`_last_success_time = time.time()` is the construction time `now`. -/
def CircuitBreaker.init (threshold : Nat) (timeout : ℤ) (now : ℤ) : CircuitBreaker :=
  { threshold := threshold, timeout := timeout, failure_count := 0,
    last_failure_time := 0, last_success_time := now, state := .CLOSED }

/-- `CircuitBreaker.is_open`: while `OPEN`, transition to `HALF_OPEN` (and
return `False`) once more than `timeout` seconds elapsed since the last
failure, else return `True`; in other states return `False`.  Returns the
boolean together with the (possibly mutated) breaker. -/
def CircuitBreaker.is_open (cb : CircuitBreaker) (now : ℤ) : Bool × CircuitBreaker :=
  if cb.state = .OPEN then
    if cb.timeout < now - cb.last_failure_time then
      (false, { cb with state := .HALF_OPEN })
    else
      (true, cb)
  else
    (false, cb)

/-- `CircuitBreaker.record_success`: reset the failure counter, stamp the
success time; `HALF_OPEN` recovers to `CLOSED`, and a success while `OPEN`
(the defensive branch) also moves to `CLOSED`. -/
def CircuitBreaker.record_success (cb : CircuitBreaker) (now : ℤ) : CircuitBreaker :=
  let cb' := { cb with failure_count := 0, last_success_time := now }
  if cb.state = .HALF_OPEN then { cb' with state := .CLOSED }
  else if cb.state = .OPEN then { cb' with state := .CLOSED }
  else cb'

/-- `CircuitBreaker.record_failure`: increment the counter, stamp the failure
time, and trip to `OPEN` when the counter reaches `threshold`. -/
def CircuitBreaker.record_failure (cb : CircuitBreaker) (now : ℤ) : CircuitBreaker :=
  let cb' := { cb with failure_count := cb.failure_count + 1, last_failure_time := now }
  if cb'.threshold ≤ cb'.failure_count then { cb' with state := .OPEN } else cb'

/-- An externally visible circuit-breaker event, carrying the wall-clock time
at which it happens. -/
inductive CBEvent where
  | success (t : ℤ)
  | failure (t : ℤ)
  | isOpenCheck (t : ℤ)
deriving DecidableEq, Repr

/-- One breaker event applied to the breaker state. -/
def CircuitBreaker.step (cb : CircuitBreaker) : CBEvent → CircuitBreaker
  | .success t => cb.record_success t
  | .failure t => cb.record_failure t
  | .isOpenCheck t => (cb.is_open t).2

/-- A sequence of breaker events applied in order. -/
def CircuitBreaker.run (cb : CircuitBreaker) (evs : List CBEvent) : CircuitBreaker :=
  evs.foldl CircuitBreaker.step cb

/-! ### Basic circuit-breaker lemmas -/

theorem record_failure_threshold (cb : CircuitBreaker) (t : ℤ) :
    (cb.record_failure t).threshold = cb.threshold := by
  unfold CircuitBreaker.record_failure
  dsimp only
  split <;> rfl

theorem record_failure_count (cb : CircuitBreaker) (t : ℤ) :
    (cb.record_failure t).failure_count = cb.failure_count + 1 := by
  unfold CircuitBreaker.record_failure
  dsimp only
  split <;> rfl

theorem record_failure_lft (cb : CircuitBreaker) (t : ℤ) :
    (cb.record_failure t).last_failure_time = t := by
  unfold CircuitBreaker.record_failure
  dsimp only
  split <;> rfl

theorem record_failure_state (cb : CircuitBreaker) (t : ℤ) :
    (cb.record_failure t).state =
      if cb.threshold ≤ cb.failure_count + 1 then .OPEN else cb.state := by
  unfold CircuitBreaker.record_failure
  dsimp only
  split <;> simp_all

theorem record_failure_timeout (cb : CircuitBreaker) (t : ℤ) :
    (cb.record_failure t).timeout = cb.timeout := by
  unfold CircuitBreaker.record_failure
  dsimp only
  split <;> rfl

/-- Failure events never change the configured timeout. -/
theorem run_failures_timeout :
    ∀ (ts : List ℤ) (cb : CircuitBreaker),
      (cb.run (ts.map .failure)).timeout = cb.timeout := by
  intro ts
  induction ts with
  | nil => intro cb; rfl
  | cons t ts ih =>
    intro cb
    have h := ih (cb.record_failure t)
    simp only [CircuitBreaker.run, List.map, List.foldl, CircuitBreaker.step] at h ⊢
    rw [h, record_failure_timeout]

/-- Applying a nonempty run of failures whose total brings the counter to the
threshold leaves the breaker `OPEN`. -/
theorem run_failures_state_open :
    ∀ (ts : List ℤ) (cb : CircuitBreaker), ts ≠ [] →
      cb.threshold ≤ cb.failure_count + ts.length →
      (cb.run (ts.map .failure)).state = .OPEN := by
  intro ts
  induction ts with
  | nil => intro cb h; exact absurd rfl h
  | cons t ts ih =>
    intro cb _ hthr
    rcases ts with _ | ⟨t', ts'⟩
    · simp only [List.map, CircuitBreaker.run, List.foldl, CircuitBreaker.step]
      rw [record_failure_state]
      simp only [List.length] at hthr
      simp [hthr]
    · have h1 : (cb.record_failure t).threshold ≤
          (cb.record_failure t).failure_count + (t' :: ts').length := by
        rw [record_failure_threshold, record_failure_count]
        simp only [List.length] at hthr ⊢
        omega
      have := ih (cb.record_failure t) (by simp) h1
      simpa [CircuitBreaker.run, CircuitBreaker.step] using this

/-- Failures accumulate in the counter. -/
theorem run_failures_count :
    ∀ (ts : List ℤ) (cb : CircuitBreaker),
      (cb.run (ts.map .failure)).failure_count = cb.failure_count + ts.length := by
  intro ts
  induction ts with
  | nil => intro cb; simp [CircuitBreaker.run]
  | cons t ts ih =>
    intro cb
    have h := ih (cb.record_failure t)
    simp only [CircuitBreaker.run, List.map, List.foldl, CircuitBreaker.step,
      List.length_cons] at h ⊢
    rw [h, record_failure_count]
    omega

/-- The last failure time after a nonempty run of failures is the time of the
last failure event. -/
theorem run_failures_lft :
    ∀ (ts : List ℤ) (cb : CircuitBreaker) (h : ts ≠ []),
      (cb.run (ts.map .failure)).last_failure_time = ts.getLast h := by
  intro ts
  induction ts with
  | nil => intro cb h; exact absurd rfl h
  | cons t ts ih =>
    intro cb _
    rcases ts with _ | ⟨t', ts'⟩
    · simp [CircuitBreaker.run, CircuitBreaker.step, record_failure_lft]
    · have := ih (cb.record_failure t) (by simp)
      simp only [CircuitBreaker.run, List.map, List.foldl, CircuitBreaker.step] at this ⊢
      rw [this]
      simp [List.getLast]

/-- Claim C3: full circuit-breaker cycle: starting `CLOSED`, `threshold` consecutive
`recordFailure` events (the last at time `tf`) leave the breaker `OPEN` and
`isOpen()` returns true while at most `timeout` seconds have passed; once more
than `timeout` seconds have elapsed since the last failure the next `isOpen()`
moves to `HALF_OPEN` and returns false, and a subsequent `recordSuccess` resets
the failure counter to zero and returns the state to `CLOSED`. -/
theorem circuit_breaker_cycle (threshold : Nat) (timeout t0 : ℤ) (ts : List ℤ)
    (tchk1 tchk2 trec : ℤ) (hthr : 0 < threshold) (hlen : ts.length = threshold)
    (hne : ts ≠ []) :
    ((CircuitBreaker.init threshold timeout t0).run (ts.map .failure)).state = .OPEN ∧
    (tchk1 - ts.getLast hne ≤ timeout →
      (((CircuitBreaker.init threshold timeout t0).run (ts.map .failure)).is_open
        tchk1).1 = true) ∧
    (timeout < tchk2 - ts.getLast hne →
      (((CircuitBreaker.init threshold timeout t0).run (ts.map .failure)).is_open
        tchk2).1 = false ∧
      (((CircuitBreaker.init threshold timeout t0).run (ts.map .failure)).is_open
        tchk2).2.state = .HALF_OPEN ∧
      ((((CircuitBreaker.init threshold timeout t0).run (ts.map .failure)).is_open
        tchk2).2.record_success trec).state = .CLOSED ∧
      ((((CircuitBreaker.init threshold timeout t0).run (ts.map .failure)).is_open
        tchk2).2.record_success trec).failure_count = 0) := by
  set cb1 := (CircuitBreaker.init threshold timeout t0).run (ts.map .failure) with hcb1
  have hopen : cb1.state = .OPEN := by
    apply run_failures_state_open ts _ hne
    simp [CircuitBreaker.init, hlen]
  have hlft : cb1.last_failure_time = ts.getLast hne :=
    run_failures_lft ts _ hne
  have htime : cb1.timeout = timeout := run_failures_timeout ts _
  refine ⟨hopen, ?_, ?_⟩
  · intro hle
    unfold CircuitBreaker.is_open
    rw [if_pos hopen, if_neg (by rw [htime, hlft]; linarith)]
  · intro hgt
    unfold CircuitBreaker.is_open
    rw [if_pos hopen, if_pos (by rw [htime, hlft]; linarith)]
    refine ⟨rfl, rfl, ?_, ?_⟩ <;>
      simp [CircuitBreaker.record_success]

/-- Closed witness for `circuit_breaker_cycle`: threshold 2, timeout 30,
failures at times 1 and 2, checks at times 10 (still open) and 40 (half-open),
recovery success at time 41. -/
theorem circuit_breaker_cycle_witness :
    let cb1 := (CircuitBreaker.init 2 30 0).run ([1, 2].map .failure)
    cb1.state = .OPEN ∧
    (cb1.is_open 10).1 = true ∧
    (cb1.is_open 40).1 = false ∧
    (cb1.is_open 40).2.state = .HALF_OPEN ∧
    ((cb1.is_open 40).2.record_success 41).state = .CLOSED ∧
    ((cb1.is_open 40).2.record_success 41).failure_count = 0 := by
  have h := circuit_breaker_cycle 2 30 0 [1, 2] 10 40 41 (by decide) (by decide)
    (by decide)
  obtain ⟨h1, h2, h3⟩ := h
  have hle : (10 : ℤ) - [1, 2].getLast (by decide) ≤ 30 := by decide
  have hgt : (30 : ℤ) < 40 - [1, 2].getLast (by decide) := by decide
  obtain ⟨g1, g2, g3, g4⟩ := h3 hgt
  exact ⟨h1, h2 hle, g1, g2, g3, g4⟩

/-- Claim C4 counterexample: the state machine does transition directly from `OPEN`
to `CLOSED` without passing through `HALF_OPEN`: with threshold 1, a single
failure trips the breaker to `OPEN`, and a `recordSuccess` on the very next
event moves it straight to `CLOSED`. -/
theorem open_to_closed_direct_counterexample :
    let cb1 := (CircuitBreaker.init 1 30 0).step (.failure 0)
    cb1.state = .OPEN ∧ (cb1.step (.success 1)).state = .CLOSED := by
  constructor <;> rfl

/-- Claim C4 amended: a direct `OPEN → CLOSED` transition can only be caused by a
`recordSuccess` event (the code's defensive "success while OPEN" branch);
`recordFailure` and `isOpen` checks never move an `OPEN` breaker straight to
`CLOSED` — the timeout recovery path always goes through `HALF_OPEN`. -/
theorem open_to_closed_only_by_success (cb : CircuitBreaker) (e : CBEvent)
    (hopen : cb.state = .OPEN) (hclosed : (cb.step e).state = .CLOSED) :
    (∃ t, e = .success t) ∧
    ∀ t, (cb.step (.isOpenCheck t)).state = .OPEN ∨
      (cb.step (.isOpenCheck t)).state = .HALF_OPEN := by
  constructor
  · cases e with
    | success t => exact ⟨t, rfl⟩
    | failure t =>
      exfalso
      simp only [CircuitBreaker.step] at hclosed
      rw [record_failure_state] at hclosed
      split at hclosed <;> simp_all
    | isOpenCheck t =>
      exfalso
      have hc : ((cb.is_open t).2).state = CBState.CLOSED := hclosed
      unfold CircuitBreaker.is_open at hc
      rw [if_pos hopen] at hc
      rcases lt_or_le cb.timeout (t - cb.last_failure_time) with h | h
      · rw [if_pos h] at hc
        simp at hc
      · rw [if_neg (not_lt.mpr h)] at hc
        exact absurd (hopen.symm.trans hc) (by simp)
  · intro t
    show ((cb.is_open t).2).state = _ ∨ ((cb.is_open t).2).state = _
    unfold CircuitBreaker.is_open
    rw [if_pos hopen]
    rcases lt_or_le cb.timeout (t - cb.last_failure_time) with h | h
    · right
      rw [if_pos h]
    · left
      rw [if_neg (not_lt.mpr h)]
      exact hopen

/-- Closed witness for `open_to_closed_only_by_success` at a concrete `OPEN`
breaker and a concrete success event. -/
theorem open_to_closed_only_by_success_witness :
    (∃ t, (CBEvent.success 5) = .success t) ∧
    ∀ t, ((((CircuitBreaker.init 1 30 0).step (.failure 0)).step
        (.isOpenCheck t)).state = .OPEN ∨
      (((CircuitBreaker.init 1 30 0).step (.failure 0)).step
        (.isOpenCheck t)).state = .HALF_OPEN) :=
  open_to_closed_only_by_success ((CircuitBreaker.init 1 30 0).step (.failure 0))
    (.success 5) (by rfl) (by rfl)

/-! ## Cache statistics (`stats.py`) -/

/-- The monotone counters of `CacheStats.__init__` (`stats.py`).  The rolling
`operation_times` window and the per-kind `error_types` map are not needed by
any claim and are not modelled; `errors` is the total error counter. -/
structure CacheStats where
  l1_hits : Nat
  l1_misses : Nat
  l2_hits : Nat
  l2_misses : Nat
  compute_hits : Nat
  errors : Nat
  circuit_breaker_trips : Nat
  warming_operations : Nat
  total_requests : Nat
  compression_saves : Nat
deriving DecidableEq, Repr

/-- All counters start at zero. -/
def CacheStats.init : CacheStats :=
  { l1_hits := 0, l1_misses := 0, l2_hits := 0, l2_misses := 0,
    compute_hits := 0, errors := 0, circuit_breaker_trips := 0,
    warming_operations := 0, total_requests := 0, compression_saves := 0 }

/-- `record_l1_hit`: increments `l1_hits` and `total_requests`. -/
def CacheStats.record_l1_hit (s : CacheStats) : CacheStats :=
  { s with l1_hits := s.l1_hits + 1, total_requests := s.total_requests + 1 }

/-- `record_l1_miss`. -/
def CacheStats.record_l1_miss (s : CacheStats) : CacheStats :=
  { s with l1_misses := s.l1_misses + 1 }

/-- `record_l2_hit`. -/
def CacheStats.record_l2_hit (s : CacheStats) : CacheStats :=
  { s with l2_hits := s.l2_hits + 1 }

/-- `record_l2_miss`. -/
def CacheStats.record_l2_miss (s : CacheStats) : CacheStats :=
  { s with l2_misses := s.l2_misses + 1 }

/-- `record_compute`. -/
def CacheStats.record_compute (s : CacheStats) : CacheStats :=
  { s with compute_hits := s.compute_hits + 1 }

/-- `record_error` (the per-kind `error_types` entry is not modelled). -/
def CacheStats.record_error (s : CacheStats) : CacheStats :=
  { s with errors := s.errors + 1 }

/-- `record_compression_save`. -/
def CacheStats.record_compression_save (s : CacheStats) : CacheStats :=
  { s with compression_saves := s.compression_saves + 1 }

/-- `record_circuit_breaker_trip`. -/
def CacheStats.record_circuit_breaker_trip (s : CacheStats) : CacheStats :=
  { s with circuit_breaker_trips := s.circuit_breaker_trips + 1 }

/-- `record_warming_operation`. -/
def CacheStats.record_warming_operation (s : CacheStats) : CacheStats :=
  { s with warming_operations := s.warming_operations + 1 }

/-- `overall_hit_rate` property: `(l1_hits + l2_hits) / total_requests`,
zero when there have been no "total requests". -/
def CacheStats.overall_hit_rate (s : CacheStats) : ℚ :=
  if 0 < s.total_requests then
    ((s.l1_hits : ℚ) + (s.l2_hits : ℚ)) / (s.total_requests : ℚ)
  else 0

/-- One recording event on the stats object. -/
inductive StatsEv where
  | l1Hit
  | l1Miss
  | l2Hit
  | l2Miss
  | compute
  | error
  | compressionSave
  | cbTrip
  | warming
deriving DecidableEq, Repr

/-- Apply one recording event. -/
def CacheStats.step (s : CacheStats) : StatsEv → CacheStats
  | .l1Hit => s.record_l1_hit
  | .l1Miss => s.record_l1_miss
  | .l2Hit => s.record_l2_hit
  | .l2Miss => s.record_l2_miss
  | .compute => s.record_compute
  | .error => s.record_error
  | .compressionSave => s.record_compression_save
  | .cbTrip => s.record_circuit_breaker_trip
  | .warming => s.record_warming_operation

/-- Apply a sequence of recording events starting from fresh counters. -/
def CacheStats.run (evs : List StatsEv) : CacheStats :=
  evs.foldl CacheStats.step CacheStats.init

theorem stats_step_invariant (s : CacheStats) (e : StatsEv)
    (h : s.total_requests = s.l1_hits) :
    (s.step e).total_requests = (s.step e).l1_hits := by
  cases e <;> simp [CacheStats.step, CacheStats.record_l1_hit,
    CacheStats.record_l1_miss, CacheStats.record_l2_hit, CacheStats.record_l2_miss,
    CacheStats.record_compute, CacheStats.record_error,
    CacheStats.record_compression_save, CacheStats.record_circuit_breaker_trip,
    CacheStats.record_warming_operation, h]

theorem stats_foldl_invariant :
    ∀ (evs : List StatsEv) (s : CacheStats), s.total_requests = s.l1_hits →
      (evs.foldl CacheStats.step s).total_requests =
        (evs.foldl CacheStats.step s).l1_hits := by
  intro evs
  induction evs with
  | nil => intro s h; exact h
  | cons e evs ih => intro s h; exact ih _ (stats_step_invariant s e h)

/-- Claim C10: the counter `total_requests` is incremented only by `record_l1_hit`, so after any
event sequence `total_requests = l1_hits`; hence whenever `l1_hits > 0` the
derived `overall_hit_rate` equals `(l1_hits + l2_hits) / l1_hits`, which
exceeds 1 (100%) as soon as any L2 hit was recorded — witnessed by the
sequence [L1 hit, L2 hit] whose rate is 2. -/
theorem total_requests_counts_only_l1_hits :
    (∀ evs : List StatsEv,
      (CacheStats.run evs).total_requests = (CacheStats.run evs).l1_hits) ∧
    (∀ evs : List StatsEv, 0 < (CacheStats.run evs).l1_hits →
      (CacheStats.run evs).overall_hit_rate =
        (((CacheStats.run evs).l1_hits : ℚ) + ((CacheStats.run evs).l2_hits : ℚ)) /
          ((CacheStats.run evs).l1_hits : ℚ)) ∧
    1 < (CacheStats.run [.l1Hit, .l2Hit]).overall_hit_rate := by
  have key : ∀ evs : List StatsEv,
      (CacheStats.run evs).total_requests = (CacheStats.run evs).l1_hits := by
    intro evs
    exact stats_foldl_invariant evs CacheStats.init rfl
  refine ⟨key, ?_, ?_⟩
  · intro evs hpos
    unfold CacheStats.overall_hit_rate
    rw [key evs, if_pos hpos]
  · norm_num [CacheStats.run, CacheStats.overall_hit_rate, CacheStats.step,
      CacheStats.init, CacheStats.record_l1_hit, CacheStats.record_l2_hit]

/-- Closed witness for `total_requests_counts_only_l1_hits`: after
[L1 hit, L2 hit], `total_requests = l1_hits = 1` and the hit rate is `2/1`. -/
theorem total_requests_counts_only_l1_hits_witness :
    (CacheStats.run [.l1Hit, .l2Hit]).total_requests =
      (CacheStats.run [.l1Hit, .l2Hit]).l1_hits ∧
    (CacheStats.run [.l1Hit, .l2Hit]).overall_hit_rate =
      (((CacheStats.run [.l1Hit, .l2Hit]).l1_hits : ℚ) +
        ((CacheStats.run [.l1Hit, .l2Hit]).l2_hits : ℚ)) /
        ((CacheStats.run [.l1Hit, .l2Hit]).l1_hits : ℚ) :=
  ⟨total_requests_counts_only_l1_hits.1 [.l1Hit, .l2Hit],
   total_requests_counts_only_l1_hits.2.1 [.l1Hit, .l2Hit] (by decide)⟩

/-! ## Values and serialization (`redis_cache.py`: `_serialize` / `_deserialize`)

Cached Python values are modelled by `Value`: the JSON-serializable scalars
(`None`, `bool`, `int`, `str`) that `_serialize` routes through `json.dumps`,
plus lists as the representative composite type routed through
`pickle.dumps`.  Floating-point values are outside the model.  Bytes are
modelled as natural numbers (`List Nat`): string characters contribute one
model byte per code point. -/

/-- A cacheable value.  `Value.null` is Python `None`. -/
inductive Value where
  | null
  | bool (b : Bool)
  | int (n : Int)
  | str (s : String)
  | list (vs : List Value)

/-- Python `value is not None`, as used by the coordinator's hit tests. -/
def Value.isNull : Value → Bool
  | .null => true
  | _ => false

/-- `isinstance(value, (str, int, float, bool, type(None)))`: the scalar test
deciding between `json.dumps` and `pickle.dumps` in `_serialize`. -/
def Value.isScalar : Value → Bool
  | .list _ => false
  | _ => true

/-- Model byte: a natural number.  Characters map to one model byte each. -/
abbrev MByte := Nat

/-- Inverse of `Char.toNat`, failing on numbers that are not valid unicode
scalar values: the model of `bytes.decode("utf-8")` at one position. -/
def byteToChar? (n : MByte) : Option Char :=
  let c := Char.ofNat n
  if c.toNat = n then some c else none

/-- Model of `data.decode("utf-8")`; `none` models `UnicodeDecodeError`. -/
def bytesToChars? : List MByte → Option (List Char)
  | [] => some []
  | b :: bs =>
    match byteToChar? b with
    | some c => (bytesToChars? bs).map (c :: ·)
    | none => none

theorem byteToChar?_toNat (c : Char) : byteToChar? c.toNat = some c := by
  simp [byteToChar?, Char.ofNat_toNat]

theorem bytesToChars?_map_toNat (cs : List Char) :
    bytesToChars? (cs.map Char.toNat) = some cs := by
  induction cs with
  | nil => rfl
  | cons c cs ih =>
    simp [bytesToChars?, byteToChar?_toNat, ih]

/-! ### Decimal printing and parsing of integers (model of `json.dumps` /
`json.loads` on `int`) -/

/-- One step of decimal accumulation. -/
def digitStep (a : Nat) (c : Char) : Nat := a * 10 + (c.toNat - 48)

/-- Numeric value of a digit string. -/
def digitsToNat (cs : List Char) : Nat := cs.foldl digitStep 0

/-- Decimal digits of `n`, most significant first; structural recursion on a
fuel that dominates `n`. -/
def natCharsAux : Nat → Nat → List Char
  | 0, n => [Nat.digitChar n]
  | fuel + 1, n =>
    if n < 10 then [Nat.digitChar n]
    else natCharsAux fuel (n / 10) ++ [Nat.digitChar (n % 10)]

/-- Decimal representation of a natural number. -/
def natChars (n : Nat) : List Char := natCharsAux n n

theorem digitChar_toNat {n : Nat} (h : n < 10) :
    (Nat.digitChar n).toNat = 48 + n := by
  interval_cases n <;> rfl

theorem digitChar_isDigit {n : Nat} (h : n < 10) :
    (Nat.digitChar n).isDigit = true := by
  interval_cases n <;> rfl

theorem natCharsAux_ne_nil (fuel n : Nat) : natCharsAux fuel n ≠ [] := by
  cases fuel with
  | zero => simp [natCharsAux]
  | succ fuel =>
    unfold natCharsAux
    split
    · simp
    · simp

theorem natCharsAux_all_digits :
    ∀ (fuel n : Nat), n ≤ fuel → ∀ c ∈ natCharsAux fuel n, c.isDigit = true := by
  intro fuel
  induction fuel with
  | zero =>
    intro n hn c hc
    interval_cases n
    simp only [natCharsAux, List.mem_singleton] at hc
    subst hc
    rfl
  | succ fuel ih =>
    intro n hn c hc
    unfold natCharsAux at hc
    split at hc
    · rename_i h10
      simp only [List.mem_singleton] at hc
      subst hc
      exact digitChar_isDigit h10
    · rename_i h10
      rw [List.mem_append] at hc
      rcases hc with hleft | hright
      · exact ih (n / 10) (by omega) c hleft
      · simp only [List.mem_singleton] at hright
        subst hright
        exact digitChar_isDigit (Nat.mod_lt _ (by omega))

theorem natCharsAux_foldl :
    ∀ (fuel n a : Nat), n ≤ fuel →
      (natCharsAux fuel n).foldl digitStep a =
        a * 10 ^ (natCharsAux fuel n).length + n := by
  intro fuel
  induction fuel with
  | zero =>
    intro n a hn
    interval_cases n
    simp [natCharsAux, digitStep, digitChar_toNat]
  | succ fuel ih =>
    intro n a hn
    unfold natCharsAux
    split
    · rename_i h10
      simp [digitStep, digitChar_toNat h10]
    · rename_i h10
      rw [List.foldl_append]
      rw [ih (n / 10) a (by omega)]
      simp only [List.foldl, digitStep, List.length_append, List.length_singleton]
      rw [digitChar_toNat (Nat.mod_lt _ (by omega))]
      have hmod : 48 + n % 10 - 48 = n % 10 := by omega
      rw [hmod, pow_succ]
      have := Nat.div_add_mod n 10
      ring_nf
      omega

theorem digitsToNat_natChars (n : Nat) : digitsToNat (natChars n) = n := by
  unfold digitsToNat natChars
  rw [natCharsAux_foldl n n 0 le_rfl]
  simp

theorem natChars_ne_nil (n : Nat) : natChars n ≠ [] := natCharsAux_ne_nil n n

theorem natChars_all_digits (n : Nat) : ∀ c ∈ natChars n, c.isDigit = true :=
  natCharsAux_all_digits n n le_rfl

/-- Parser for an optionally-signed decimal integer: the model of
`json.loads` on integer payloads. -/
def parseNatDigits (cs : List Char) : Option Nat :=
  if cs ≠ [] ∧ cs.all Char.isDigit then some (digitsToNat cs) else none

def parseInt (cs : List Char) : Option Int :=
  match cs with
  | [] => none
  | c :: cs' =>
    if c = '-' then (parseNatDigits cs').map (fun n => -(n : Int))
    else (parseNatDigits (c :: cs')).map (fun n => (n : Int))

theorem parseNatDigits_natChars (n : Nat) : parseNatDigits (natChars n) = some n := by
  unfold parseNatDigits
  rw [if_pos ⟨natChars_ne_nil n, by
    rw [List.all_eq_true]
    exact natChars_all_digits n⟩]
  rw [digitsToNat_natChars]

/-- `json.dumps` on an `Int` value. -/
def intChars : Int → List Char
  | .ofNat n => natChars n
  | .negSucc m => '-' :: natChars (m + 1)

theorem natChars_head_digit (n : Nat) :
    ∃ c cs', natChars n = c :: cs' ∧ c.isDigit = true := by
  rcases h : natChars n with _ | ⟨c, cs'⟩
  · exact absurd h (natChars_ne_nil n)
  · exact ⟨c, cs', rfl, natChars_all_digits n c (by rw [h]; simp)⟩

theorem parseInt_intChars (i : Int) : parseInt (intChars i) = some i := by
  cases i with
  | ofNat n =>
    obtain ⟨c, cs', heq, hdig⟩ := natChars_head_digit n
    simp only [intChars, heq, parseInt]
    rw [if_neg (by rintro rfl; simp at hdig)]
    rw [← heq, parseNatDigits_natChars]
    rfl
  | negSucc m =>
    simp [intChars, parseInt, parseNatDigits_natChars, Int.negSucc_eq]

/-! ### JSON string escaping (model of `json.dumps` / `json.loads` on `str`)

The model escapes `"` and `\` with a backslash; `json.dumps`'s additional
`\uXXXX` escapes for control and non-ASCII characters are not modelled —
those characters are written literally, which keeps the encoding injective
and invertible, the two properties the source relies on. -/

def jsonEscape : List Char → List Char
  | [] => []
  | c :: cs =>
    if c = '"' ∨ c = '\\' then '\\' :: c :: jsonEscape cs
    else c :: jsonEscape cs

/-- Parse the body of a JSON string literal: everything after the opening
quote, requiring the input to end exactly at the closing quote. -/
def parseStrBody : List Char → List Char → Option (List Char)
  | _, [] => none
  | acc, [c] => if c = '"' then some acc else none
  | acc, c :: d :: rest =>
    if c = '\\' then parseStrBody (acc ++ [d]) rest
    else if c = '"' then none
    else parseStrBody (acc ++ [c]) (d :: rest)

theorem parseStrBody_jsonEscape :
    ∀ (s acc : List Char), parseStrBody acc (jsonEscape s ++ ['"']) = some (acc ++ s) := by
  intro s
  induction s with
  | nil => intro acc; simp [jsonEscape, parseStrBody]
  | cons c s ih =>
    intro acc
    by_cases hc : c = '"' ∨ c = '\\'
    · rw [jsonEscape, if_pos hc]
      simp only [List.cons_append, parseStrBody]
      simp [ih]
    · rw [jsonEscape, if_neg hc]
      push_neg at hc
      rcases h : jsonEscape s ++ ['"'] with _ | ⟨d, rest⟩
      · simp at h
      · simp only [List.cons_append, h, parseStrBody]
        rw [if_neg hc.2, if_neg hc.1, ← h, ih]
        simp

/-- `json.dumps` on the scalar values accepted by `_serialize`'s
`isinstance` test (the `.list` case is never passed to it). -/
def jsonEncodeScalar : Value → List Char
  | .null => "null".data
  | .bool b => (cond b "true" "false").data
  | .int n => intChars n
  | .str s => '"' :: (jsonEscape s.data ++ ['"'])
  | .list _ => []

/-- `json.loads` restricted to the payloads this cache produces: `null`, the
booleans, integers and string literals; `none` models `json.JSONDecodeError`. -/
def jsonDecode (cs : List Char) : Option Value :=
  if cs = "null".data then some .null
  else if cs = "true".data then some (.bool true)
  else if cs = "false".data then some (.bool false)
  else if cs.head? = some '"' then
    (parseStrBody [] cs.tail).map (fun l => .str (String.mk l))
  else (parseInt cs).map .int

theorem jsonDecode_jsonEncode_null : jsonDecode (jsonEncodeScalar .null) = some .null := rfl

theorem jsonDecode_jsonEncode_bool (b : Bool) :
    jsonDecode (jsonEncodeScalar (.bool b)) = some (.bool b) := by
  cases b <;> rfl

theorem jsonDecode_jsonEncode_int (n : Int) :
    jsonDecode (jsonEncodeScalar (.int n)) = some (.int n) := by
  obtain ⟨c, cs', heq, hdig⟩ := natChars_head_digit n.natAbs
  have hhead : ∃ c cs', intChars n = c :: cs' ∧ (c.isDigit = true ∨ c = '-') := by
    cases n with
    | ofNat m =>
      obtain ⟨c, cs', heq, hdig⟩ := natChars_head_digit m
      exact ⟨c, cs', heq, Or.inl hdig⟩
    | negSucc m => exact ⟨'-', natChars (m + 1), rfl, Or.inr rfl⟩
  obtain ⟨c, cs', heq, hc⟩ := hhead
  have hne : ∀ (d : Char) (l : List Char), d ≠ c → intChars n ≠ d :: l := by
    intro d l hd he
    rw [heq] at he
    exact hd (List.head_eq_of_cons_eq he).symm
  have hcnotq : c ≠ '"' := by
    rcases hc with hd | hd
    · rintro rfl; simp at hd
    · rintro rfl; simp at hd
  unfold jsonDecode
  rw [if_neg (by
      apply hne 'n'
      rcases hc with hd | hd
      · rintro rfl; simp at hd
      · rintro rfl; simp at hd),
    if_neg (by
      apply hne 't'
      rcases hc with hd | hd
      · rintro rfl; simp at hd
      · rintro rfl; simp at hd),
    if_neg (by
      apply hne 'f'
      rcases hc with hd | hd
      · rintro rfl; simp at hd
      · rintro rfl; simp at hd),
    if_neg (by
      simp only [jsonEncodeScalar, heq, List.head?]
      intro hcq
      exact hcnotq (by injection hcq)),
    jsonEncodeScalar, parseInt_intChars]
  rfl

theorem jsonDecode_jsonEncode_str (s : String) :
    jsonDecode (jsonEncodeScalar (.str s)) = some (.str s) := by
  unfold jsonDecode jsonEncodeScalar
  rw [if_neg (by simp), if_neg (by simp), if_neg (by simp),
    if_pos (by simp)]
  simp only [List.tail_cons, parseStrBody_jsonEscape, List.nil_append, Option.map_some]
  cases s
  rfl

/-- `json.loads` roundtrips every scalar the cache serializes as JSON. -/
theorem jsonDecode_jsonEncodeScalar (v : Value) (h : v.isScalar = true) :
    jsonDecode (jsonEncodeScalar v) = some v := by
  cases v with
  | null => exact jsonDecode_jsonEncode_null
  | bool b => exact jsonDecode_jsonEncode_bool b
  | int n => exact jsonDecode_jsonEncode_int n
  | str s => exact jsonDecode_jsonEncode_str s
  | list vs => simp [Value.isScalar] at h

/-- `json.loads` fails on any payload whose first character can open none of
the JSON forms the cache stores (used for pickled payloads, whose first model
byte is pickle's `0x80` protocol marker). -/
theorem jsonDecode_bad_head (c : Char) (cs : List Char)
    (h1 : c.isDigit = false) (h2 : c ≠ '-') (h3 : c ≠ '"')
    (h4 : c ≠ 'n') (h5 : c ≠ 't') (h6 : c ≠ 'f') :
    jsonDecode (c :: cs) = none := by
  unfold jsonDecode
  rw [if_neg (by intro he; exact h4 (List.head_eq_of_cons_eq he)),
    if_neg (by intro he; exact h5 (List.head_eq_of_cons_eq he)),
    if_neg (by intro he; exact h6 (List.head_eq_of_cons_eq he)),
    if_neg (by simp only [List.head?]; intro he; exact h3 (by injection he))]
  simp only [parseInt]
  rw [if_neg h2]
  simp only [parseNatDigits]
  rw [if_neg (by
    rintro ⟨-, hall⟩
    rw [List.all_eq_true] at hall
    have := hall c (by simp)
    rw [h1] at this
    exact Bool.noConfusion this)]
  rfl

/-! ### Pickle model

`pickle.dumps` / `pickle.loads` are standard-library black boxes; the model
keeps the two behavioural facts the cache code depends on: the encoding is
injective and invertible, and (protocol ≥ 2) the first byte is `0x80`, which
is why `data.decode("utf-8")`/`json.loads` always fails on pickled payloads
and `_deserialize`'s fallback chain is sound. -/

mutual

/-- Model payload of `pickle.dumps` (after the 2-byte protocol header). -/
def pickleBody : Value → List MByte
  | .null => [0]
  | .bool b => [1, cond b 1 0]
  | .int (.ofNat n) => [2, 0, n]
  | .int (.negSucc m) => [2, 1, m]
  | .str s => 3 :: s.length :: s.data.map Char.toNat
  | .list vs => 4 :: pickleListSD vs

/-- Self-delimiting encoding of a list of values. -/
def pickleListSD : List Value → List MByte
  | [] => [0]
  | v :: vs => 1 :: (pickleBody v ++ pickleListSD vs)

end

mutual

/-- Structural depth of a value, used as decoder fuel. -/
def vDepth : Value → Nat
  | .list vs => lDepth vs + 1
  | _ => 1

def lDepth : List Value → Nat
  | [] => 1
  | v :: vs => vDepth v + lDepth vs + 1

end

mutual

/-- Fuel-indexed decoder for `pickleBody`; returns the value and the
remaining bytes. -/
def decV : Nat → List MByte → Option (Value × List MByte)
  | 0, _ => none
  | _ + 1, 0 :: rest => some (.null, rest)
  | _ + 1, 1 :: b :: rest => some (.bool (b == 1), rest)
  | _ + 1, 2 :: 0 :: n :: rest => some (.int (Int.ofNat n), rest)
  | _ + 1, 2 :: 1 :: m :: rest => some (.int (Int.negSucc m), rest)
  | _ + 1, 3 :: len :: rest =>
    if len ≤ rest.length then
      match bytesToChars? (rest.take len) with
      | some cs => some (.str (String.mk cs), rest.drop len)
      | none => none
    else none
  | fuel + 1, 4 :: rest =>
    match decL fuel rest with
    | some (vs, r) => some (.list vs, r)
    | none => none
  | _ + 1, _ => none

def decL : Nat → List MByte → Option (List Value × List MByte)
  | 0, _ => none
  | _ + 1, 0 :: rest => some ([], rest)
  | fuel + 1, 1 :: rest =>
    match decV fuel rest with
    | some (v, r1) =>
      match decL fuel r1 with
      | some (vs, r2) => some (v :: vs, r2)
      | none => none
    | none => none
  | _ + 1, _ => none

end

mutual

theorem decV_pickleBody (v : Value) :
    ∀ (rest : List MByte) (fuel : Nat), vDepth v ≤ fuel →
      decV fuel (pickleBody v ++ rest) = some (v, rest) := by
  cases v with
  | null =>
    intro rest fuel hf
    match fuel, hf with
    | f + 1, _ => rfl
  | bool b =>
    intro rest fuel hf
    match fuel, hf with
    | f + 1, _ => cases b <;> rfl
  | int n =>
    intro rest fuel hf
    match fuel, hf with
    | f + 1, _ => cases n <;> rfl
  | str s =>
    intro rest fuel hf
    match fuel, hf with
    | f + 1, _ =>
      show decV (f + 1) (3 :: s.length :: (s.data.map Char.toNat ++ rest)) = _
      have hsl : s.length = s.data.length := rfl
      simp only [decV]
      rw [if_pos (le_trans (le_of_eq hsl)
        (by rw [List.length_append, List.length_map]; exact Nat.le_add_right _ _))]
      have hlen : s.length = (s.data.map Char.toNat).length := by
        rw [List.length_map]; exact hsl
      rw [hlen, List.take_left, List.drop_left, bytesToChars?_map_toNat]
  | list vs =>
    intro rest fuel hf
    match fuel, hf with
    | f + 1, hf =>
      show decV (f + 1) (4 :: (pickleListSD vs ++ rest)) = _
      simp only [decV]
      rw [decL_pickleListSD vs rest f (by
        have : vDepth (.list vs) = lDepth vs + 1 := rfl
        omega)]

theorem decL_pickleListSD (vs : List Value) :
    ∀ (rest : List MByte) (fuel : Nat), lDepth vs ≤ fuel →
      decL fuel (pickleListSD vs ++ rest) = some (vs, rest) := by
  cases vs with
  | nil =>
    intro rest fuel hf
    match fuel, hf with
    | f + 1, _ => rfl
  | cons v vs =>
    intro rest fuel hf
    match fuel, hf with
    | f + 1, hf =>
      show decL (f + 1) (1 :: ((pickleBody v ++ pickleListSD vs) ++ rest)) = _
      simp only [decL]
      rw [List.append_assoc,
        decV_pickleBody v (pickleListSD vs ++ rest) f (by
          have : lDepth (v :: vs) = vDepth v + lDepth vs + 1 := rfl
          omega)]
      dsimp only
      rw [decL_pickleListSD vs rest f (by
        have : lDepth (v :: vs) = vDepth v + lDepth vs + 1 := rfl
        omega)]

end

mutual

/-- The fuel `vDepth` is dominated by the payload length. -/
theorem vDepth_le_len (v : Value) : vDepth v ≤ (pickleBody v).length := by
  cases v with
  | null => simp [vDepth, pickleBody]
  | bool b => simp [vDepth, pickleBody]
  | int n => cases n <;> simp [vDepth, pickleBody]
  | str s => simp [vDepth, pickleBody]
  | list vs =>
    have h := lDepth_le_len vs
    show lDepth vs + 1 ≤ (4 :: pickleListSD vs).length
    simp only [List.length_cons]
    omega

theorem lDepth_le_len (vs : List Value) : lDepth vs ≤ (pickleListSD vs).length := by
  cases vs with
  | nil => simp [lDepth, pickleListSD]
  | cons v vs =>
    have h1 := vDepth_le_len v
    have h2 := lDepth_le_len vs
    show vDepth v + lDepth vs + 1 ≤ (1 :: (pickleBody v ++ pickleListSD vs)).length
    simp only [List.length_cons, List.length_append]
    omega

end

/-- `pickle.dumps` (protocol-4 `0x80 0x04` header, then the model payload). -/
def pickleDumps (v : Value) : List MByte := 128 :: 4 :: pickleBody v

/-- `pickle.loads`; `none` models `pickle.UnpicklingError`. -/
def pickleLoads (bs : List MByte) : Option Value :=
  match bs with
  | b0 :: b1 :: rest =>
    if b0 = 128 ∧ b1 = 4 then
      match decV rest.length rest with
      | some (v, []) => some v
      | _ => none
    else none
  | _ => none

theorem pickleLoads_pickleDumps (v : Value) : pickleLoads (pickleDumps v) = some v := by
  show pickleLoads (128 :: 4 :: pickleBody v) = some v
  have h := decV_pickleBody v [] (pickleBody v).length (vDepth_le_len v)
  rw [List.append_nil] at h
  simp only [pickleLoads]
  rw [if_pos ⟨trivial, trivial⟩, h]

/-! ### `_serialize` / `_deserialize` (`redis_cache.py` lines 141–178) -/

/-- The serializer-relevant part of `CacheConfig`. -/
structure SerCfg where
  compression_enabled : Bool
  compression_threshold : Nat
deriving DecidableEq, Repr

/-- The fixed `b'compressed:'` prefix marker. -/
def markerBytes : List MByte :=
  ['c', 'o', 'm', 'p', 'r', 'e', 's', 's', 'e', 'd', ':'].map Char.toNat

/-- Model of `gzip.compress`: an invertible tagging with the gzip magic
bytes; actual size reduction is irrelevant to every claim. -/
def gzipCompress (d : List MByte) : List MByte := 31 :: 139 :: d

/-- Model of `gzip.decompress`, the left inverse of `gzipCompress`. -/
def gzipDecompress (d : List MByte) : List MByte := d.drop 2

/-- The pre-compression serialization: `json.dumps(...).encode("utf-8")` for
scalars, `pickle.dumps` otherwise. -/
def rawSerialize (v : Value) : List MByte :=
  if v.isScalar then (jsonEncodeScalar v).map Char.toNat else pickleDumps v

/-- `_serialize`, also reporting whether compression fired (the source
records a compression-save stat in that branch). -/
def serializeFlag (cfg : SerCfg) (v : Value) : List MByte × Bool :=
  if cfg.compression_enabled &&
      decide (cfg.compression_threshold < (rawSerialize v).length) then
    (markerBytes ++ gzipCompress (rawSerialize v), true)
  else (rawSerialize v, false)

/-- `_serialize`: the stored bytes. -/
def serialize (cfg : SerCfg) (v : Value) : List MByte := (serializeFlag cfg v).1

/-- The shared decode path of `_deserialize` after the conditional
decompression: `json.loads(data.decode("utf-8"))`, falling back to
`pickle.loads(data)` on `UnicodeDecodeError`/`JSONDecodeError`. -/
def decodePayload (data : List MByte) : Option Value :=
  match bytesToChars? data with
  | some cs =>
    match jsonDecode cs with
    | some v => some v
    | none => pickleLoads data
  | none => pickleLoads data

/-- `_deserialize`: strip and reverse compression if the marker prefix is
present, then decode; `none` models the re-raised exception. -/
def deserialize (bs : List MByte) : Option Value :=
  if markerBytes.isPrefixOf bs then decodePayload (gzipDecompress (bs.drop 11))
  else decodePayload bs

theorem natCharsAux_toNat_le :
    ∀ (fuel n : Nat), n ≤ fuel → ∀ c ∈ natCharsAux fuel n, c.toNat ≤ 57 := by
  intro fuel
  induction fuel with
  | zero =>
    intro n hn c hc
    interval_cases n
    simp only [natCharsAux, List.mem_singleton] at hc
    subst hc
    decide
  | succ fuel ih =>
    intro n hn c hc
    unfold natCharsAux at hc
    split at hc
    · rename_i h10
      simp only [List.mem_singleton] at hc
      subst hc
      rw [digitChar_toNat h10]
      omega
    · rename_i h10
      rw [List.mem_append] at hc
      rcases hc with hlo | hhi
      · exact ih (n / 10) (by omega) c hlo
      · simp only [List.mem_singleton] at hhi
        subst hhi
        rw [digitChar_toNat (Nat.mod_lt _ (by omega))]
        omega

/-- The first byte of an uncompressed payload is never `c` (`0x63`), so the
`b'compressed:'` marker can never be a prefix of uncompressed data. -/
theorem rawSerialize_head (v : Value) :
    ∃ b rest, rawSerialize v = b :: rest ∧ b ≠ 99 := by
  cases v with
  | null => exact ⟨110, _, rfl, by decide⟩
  | bool b =>
    cases b
    · exact ⟨102, _, rfl, by decide⟩
    · exact ⟨116, _, rfl, by decide⟩
  | int n =>
    have hint : rawSerialize (.int n) = (intChars n).map Char.toNat := rfl
    cases n with
    | ofNat m =>
      obtain ⟨c, cs', heq, hdig⟩ := natChars_head_digit m
      refine ⟨c.toNat, cs'.map Char.toNat, ?_, ?_⟩
      · rw [hint, show intChars (Int.ofNat m) = natChars m from rfl, heq]
        rfl
      · have hle : c.toNat ≤ 57 :=
          natCharsAux_toNat_le m m le_rfl c
            (by rw [show natCharsAux m m = natChars m from rfl, heq]; simp)
        intro h
        rw [h] at hle
        norm_num at hle
    | negSucc m =>
      refine ⟨45, (natChars (m + 1)).map Char.toNat, ?_, by decide⟩
      rw [hint]
      rfl
  | str s => exact ⟨34, _, rfl, by decide⟩
  | list vs => exact ⟨128, _, rfl, by decide⟩

theorem marker_not_prefix_rawSerialize (v : Value) :
    markerBytes.isPrefixOf (rawSerialize v) = false := by
  obtain ⟨b, rest, heq, hb⟩ := rawSerialize_head v
  rw [heq]
  show (99 :: _).isPrefixOf (b :: rest) = false
  simp only [List.isPrefixOf]
  rw [Bool.and_eq_false_iff]
  left
  simpa using fun h => hb h.symm

theorem bytesToChars?_cons_shape (b : MByte) (bs : List MByte) (cs : List Char)
    (h : bytesToChars? (b :: bs) = some cs) :
    ∃ c cs', byteToChar? b = some c ∧ cs = c :: cs' := by
  unfold bytesToChars? at h
  rcases hb : byteToChar? b with _ | c
  · rw [hb] at h
    exact absurd h (by simp)
  · rw [hb] at h
    rcases hrest : bytesToChars? bs with _ | cs'
    · rw [hrest] at h
      exact absurd h (by simp)
    · rw [hrest] at h
      exact ⟨c, cs', rfl, by simpa using h.symm⟩

/-- Decoding inverts the raw (pre-compression) serialization. -/
theorem decodePayload_rawSerialize (v : Value) :
    decodePayload (rawSerialize v) = some v := by
  by_cases hs : v.isScalar = true
  · unfold decodePayload
    rw [show rawSerialize v = (jsonEncodeScalar v).map Char.toNat from by
      unfold rawSerialize; rw [if_pos hs]]
    rw [bytesToChars?_map_toNat]
    dsimp only
    rw [jsonDecode_jsonEncodeScalar v hs]
  · have hraw : rawSerialize v = 128 :: 4 :: pickleBody v := by
      unfold rawSerialize
      rw [if_neg (by simpa using hs)]
      rfl
    have hpl : pickleLoads (rawSerialize v) = some v := by
      rw [hraw]
      exact pickleLoads_pickleDumps v
    unfold decodePayload
    rcases hbc : bytesToChars? (rawSerialize v) with _ | cs
    · exact hpl
    · obtain ⟨c, cs', hb, hcs⟩ := by
        rw [hraw] at hbc
        exact bytesToChars?_cons_shape _ _ _ hbc
      have h128 : byteToChar? 128 = some (Char.ofNat 128) := by decide
      have hc : Char.ofNat 128 = c := Option.some.inj (h128.symm.trans hb)
      subst hcs
      rw [← hc]
      dsimp only
      rw [jsonDecode_bad_head (Char.ofNat 128) cs' (by decide) (by decide) (by decide)
        (by decide) (by decide) (by decide)]
      exact hpl

/-- Claim C6: decode inverts encode for every value; with compression enabled the
stored bytes carry the `b'compressed:'` marker exactly when the
pre-compression size exceeds the threshold, and values at or below the
threshold are stored as the raw serialization (uncompressed). -/
theorem serialize_roundtrip_and_marker (cfg : SerCfg) (v : Value) :
    deserialize (serialize cfg v) = some v ∧
    (cfg.compression_enabled = true →
      (markerBytes.isPrefixOf (serialize cfg v) = true ↔
        cfg.compression_threshold < (rawSerialize v).length)) ∧
    ((rawSerialize v).length ≤ cfg.compression_threshold →
      serialize cfg v = rawSerialize v) := by
  rcases hcond : cfg.compression_enabled &&
      decide (cfg.compression_threshold < (rawSerialize v).length) with _ | _
  · -- uncompressed branch
    have hser : serialize cfg v = rawSerialize v := by
      unfold serialize serializeFlag
      rw [hcond]
      rfl
    refine ⟨?_, ?_, fun _ => hser⟩
    · rw [hser]
      unfold deserialize
      rw [marker_not_prefix_rawSerialize v]
      simp only [Bool.false_eq_true, if_false]
      exact decodePayload_rawSerialize v
    · intro hen
      rw [hser, marker_not_prefix_rawSerialize v]
      rw [hen, Bool.true_and] at hcond
      constructor
      · intro h
        exact absurd h (by simp)
      · intro h
        exact absurd h (of_decide_eq_false hcond)
  · -- compressed branch
    have hser : serialize cfg v = markerBytes ++ gzipCompress (rawSerialize v) := by
      unfold serialize serializeFlag
      rw [hcond]
      rfl
    have hlt : cfg.compression_threshold < (rawSerialize v).length := by
      rcases Bool.and_eq_true _ _ |>.mp hcond with ⟨-, h2⟩
      exact of_decide_eq_true h2
    have hpre : markerBytes.isPrefixOf (serialize cfg v) = true := by
      rw [hser, List.isPrefixOf_iff_prefix]
      exact List.prefix_append _ _
    refine ⟨?_, fun _ => ⟨fun _ => hlt, fun _ => hpre⟩, fun hle => absurd hlt (by omega)⟩
    unfold deserialize
    rw [hpre]
    simp only [if_true]
    rw [hser, show ((markerBytes ++ gzipCompress (rawSerialize v)).drop 11) =
      gzipCompress (rawSerialize v) from by
        rw [show (11 : Nat) = markerBytes.length from rfl, List.drop_left]]
    rw [show gzipDecompress (gzipCompress (rawSerialize v)) = rawSerialize v from rfl]
    exact decodePayload_rawSerialize v

/-- Closed witness for `serialize_roundtrip_and_marker`: with compression
enabled and threshold 3, the string "abcdef" (raw size 8 > 3) round-trips and
carries the marker; with threshold 100 it is stored uncompressed. -/
theorem serialize_roundtrip_and_marker_witness :
    deserialize (serialize ⟨true, 3⟩ (.str "abcdef")) = some (.str "abcdef") ∧
    (markerBytes.isPrefixOf (serialize ⟨true, 3⟩ (.str "abcdef")) = true ↔
      3 < (rawSerialize (.str "abcdef")).length) ∧
    serialize ⟨true, 100⟩ (.str "abcdef") = rawSerialize (.str "abcdef") :=
  ⟨(serialize_roundtrip_and_marker ⟨true, 3⟩ (.str "abcdef")).1,
   (serialize_roundtrip_and_marker ⟨true, 3⟩ (.str "abcdef")).2.1 rfl,
   (serialize_roundtrip_and_marker ⟨true, 100⟩ (.str "abcdef")).2.2 (by decide)⟩

/-! ## Retry executor (`redis_cache.py` `_with_retry`, lines 180–213)

One attempt is `async with circuit_breaker.protect(): await operation(...)`.
The network behaviour of attempt `i` is an oracle `op i`: the attempt either
succeeds, raises a connection error (`redis.exceptions.ConnectionError`, or
any error whose text contains "connection"), or raises any other error.
`CircuitBreakerOpenError` raised by `protect` before the operation runs is a
non-connection error and is retried like any other failure, but records no
breaker failure.  Delays from `asyncio.sleep` advance the model clock. -/

/-- The retry-relevant part of `CacheConfig`. -/
structure RetryCfg where
  max_retries : Nat
  retry_delay : ℤ
deriving DecidableEq, Repr

/-- Outcome of one network attempt. -/
inductive NetResult where
  | ok
  | connErr
  | otherErr
deriving DecidableEq, Repr

/-- Observable events of one `_with_retry` call. -/
inductive RetryEv where
  | opCall (i : Nat) (r : NetResult)
  | cbReject (i : Nat)
  | slept (d : ℤ)
deriving DecidableEq, Repr

/-- How `_with_retry` terminates: a returned value, an immediately re-raised
connection error, or the final `raise last_exception` after all retries. -/
inductive RetryResult where
  | success
  | connFail
  | exhausted
deriving DecidableEq, Repr

structure RetryOut where
  result : RetryResult
  cb : CircuitBreaker
  stats : CacheStats
  now : ℤ
  trace : List RetryEv
deriving Repr

/-- The retry loop body, structurally recursive on the number of remaining
loop iterations (`max_retries + 1` at entry). -/
def retryGo (cfg : RetryCfg) (op : Nat → NetResult) :
    Nat → Nat → CircuitBreaker → CacheStats → ℤ → List RetryEv → RetryOut
  | _, 0, cb, st, now, tr =>
    ⟨.exhausted, cb, st.record_circuit_breaker_trip, now, tr⟩
  | attempt, r + 1, cb, st, now, tr =>
    let chk := cb.is_open now
    if chk.1 then
      -- protect raises CircuitBreakerOpenError before the operation runs
      let st1 := st.record_error
      let tr1 := tr ++ [.cbReject attempt]
      if r = 0 then ⟨.exhausted, chk.2, st1.record_circuit_breaker_trip, now, tr1⟩
      else
        let d := cfg.retry_delay * 2 ^ attempt
        retryGo cfg op (attempt + 1) r chk.2 st1 (now + d) (tr1 ++ [.slept d])
    else
      match op attempt with
      | .ok =>
        ⟨.success, (chk.2).record_success now, st, now, tr ++ [.opCall attempt .ok]⟩
      | .connErr =>
        ⟨.connFail, (chk.2).record_failure now, st.record_error, now,
          tr ++ [.opCall attempt .connErr]⟩
      | .otherErr =>
        let cb2 := (chk.2).record_failure now
        let st1 := st.record_error
        let tr1 := tr ++ [.opCall attempt .otherErr]
        if r = 0 then ⟨.exhausted, cb2, st1.record_circuit_breaker_trip, now, tr1⟩
        else
          let d := cfg.retry_delay * 2 ^ attempt
          retryGo cfg op (attempt + 1) r cb2 st1 (now + d) (tr1 ++ [.slept d])

/-- `_with_retry` entry point. -/
def withRetry (cfg : RetryCfg) (cb : CircuitBreaker) (st : CacheStats) (now : ℤ)
    (op : Nat → NetResult) : RetryOut :=
  retryGo cfg op 0 (cfg.max_retries + 1) cb st now []

/-- The sleep durations of a retry trace, in order. -/
def sleepsOf (tr : List RetryEv) : List ℤ :=
  tr.filterMap fun e =>
    match e with
    | .slept d => some d
    | _ => none

/-- No connection-error attempt occurs in the trace. -/
def noConn (tr : List RetryEv) : Prop :=
  ∀ i, RetryEv.opCall i .connErr ∉ tr

theorem sleepsOf_append (t1 t2 : List RetryEv) :
    sleepsOf (t1 ++ t2) = sleepsOf t1 ++ sleepsOf t2 := by
  unfold sleepsOf
  rw [List.filterMap_append]

theorem sleepsOf_opCall (i : Nat) (r : NetResult) : sleepsOf [.opCall i r] = [] := rfl

theorem sleepsOf_cbReject (i : Nat) : sleepsOf [.cbReject i] = [] := rfl

theorem sleepsOf_slept (d : ℤ) : sleepsOf [.slept d] = [d] := rfl

theorem range_succ_shift (rd : ℤ) (attempt k : Nat) :
    (List.range (k + 1)).map (fun i => rd * 2 ^ (attempt + i)) =
      rd * 2 ^ attempt :: (List.range k).map (fun i => rd * 2 ^ (attempt + 1 + i)) := by
  rw [List.range_succ_eq_map, List.map_cons, List.map_map]
  simp only [Nat.add_zero]
  congr 1
  apply List.map_congr_left
  intro i _
  simp only [Function.comp_apply]
  rw [show attempt + Nat.succ i = attempt + 1 + i from by omega]

theorem retryGo_sleeps (cfg : RetryCfg) (op : Nat → NetResult) :
    ∀ (remaining attempt : Nat) (cb : CircuitBreaker) (st : CacheStats) (now : ℤ)
      (tr : List RetryEv),
      ∃ k, sleepsOf (retryGo cfg op attempt remaining cb st now tr).trace =
        sleepsOf tr ++ (List.range k).map (fun i => cfg.retry_delay * 2 ^ (attempt + i)) := by
  intro remaining
  induction remaining with
  | zero =>
    intro attempt cb st now tr
    exact ⟨0, by simp [retryGo]⟩
  | succ r ih =>
    intro attempt cb st now tr
    unfold retryGo
    dsimp only
    split
    · -- circuit open
      split
      · exact ⟨0, by rw [sleepsOf_append, sleepsOf_cbReject]; simp⟩
      · obtain ⟨k, hk⟩ := ih (attempt + 1) (cb.is_open now).2 st.record_error
          (now + cfg.retry_delay * 2 ^ attempt)
          ((tr ++ [.cbReject attempt]) ++ [.slept (cfg.retry_delay * 2 ^ attempt)])
        refine ⟨k + 1, ?_⟩
        rw [hk, sleepsOf_append, sleepsOf_append, sleepsOf_cbReject, sleepsOf_slept,
          range_succ_shift]
        simp
    · -- circuit closed: case on the attempt outcome
      split
      · exact ⟨0, by rw [sleepsOf_append, sleepsOf_opCall]; simp⟩
      · exact ⟨0, by rw [sleepsOf_append, sleepsOf_opCall]; simp⟩
      · split
        · exact ⟨0, by rw [sleepsOf_append, sleepsOf_opCall]; simp⟩
        · obtain ⟨k, hk⟩ := ih (attempt + 1) ((cb.is_open now).2.record_failure now)
            st.record_error (now + cfg.retry_delay * 2 ^ attempt)
            ((tr ++ [.opCall attempt .otherErr]) ++ [.slept (cfg.retry_delay * 2 ^ attempt)])
          refine ⟨k + 1, ?_⟩
          rw [hk, sleepsOf_append, sleepsOf_append, sleepsOf_opCall, sleepsOf_slept,
            range_succ_shift]
          simp

theorem noConn_append_single (tr : List RetryEv) (ev : RetryEv) (h : noConn tr)
    (hev : ∀ i, ev ≠ .opCall i .connErr) : noConn (tr ++ [ev]) := by
  intro i hmem
  rw [List.mem_append, List.mem_singleton] at hmem
  rcases hmem with hmem | hmem
  · exact h i hmem
  · exact hev i hmem.symm

/-- Number of operation invocations in a retry trace. -/
def opCallsOf (tr : List RetryEv) : Nat :=
  tr.countP fun e =>
    match e with
    | .opCall _ _ => true
    | _ => false

theorem retryGo_connErr (cfg : RetryCfg) (op : Nat → NetResult) :
    ∀ (remaining attempt : Nat) (cb : CircuitBreaker) (st : CacheStats) (now : ℤ)
      (tr : List RetryEv), noConn tr →
      ((retryGo cfg op attempt remaining cb st now tr).result = .connFail ∧
        ∃ pre i, (retryGo cfg op attempt remaining cb st now tr).trace =
          pre ++ [.opCall i .connErr] ∧ noConn pre) ∨
      ((retryGo cfg op attempt remaining cb st now tr).result ≠ .connFail ∧
        noConn (retryGo cfg op attempt remaining cb st now tr).trace) := by
  intro remaining
  induction remaining with
  | zero =>
    intro attempt cb st now tr htr
    exact Or.inr ⟨by simp [retryGo], htr⟩
  | succ r ih =>
    intro attempt cb st now tr htr
    unfold retryGo
    dsimp only
    split
    · split
      · exact Or.inr ⟨by simp, noConn_append_single tr _ htr
          (fun i h => RetryEv.noConfusion h)⟩
      · exact ih (attempt + 1) _ _ _ _
          (noConn_append_single _ _
            (noConn_append_single tr _ htr (fun i h => RetryEv.noConfusion h))
            (fun i h => RetryEv.noConfusion h))
    · split
      · exact Or.inr ⟨by simp, noConn_append_single tr _ htr
          (fun i h => by injection h with h1 h2; exact NetResult.noConfusion h2)⟩
      · exact Or.inl ⟨rfl, tr, attempt, rfl, htr⟩
      · split
        · exact Or.inr ⟨by simp, noConn_append_single tr _ htr
            (fun i h => by injection h with h1 h2; exact NetResult.noConfusion h2)⟩
        · exact ih (attempt + 1) _ _ _ _
            (noConn_append_single _ _
              (noConn_append_single tr _ htr
                (fun i h => by injection h with h1 h2; exact NetResult.noConfusion h2))
              (fun i h => RetryEv.noConfusion h))

theorem retryGo_opCalls (cfg : RetryCfg) (op : Nat → NetResult) :
    ∀ (remaining attempt : Nat) (cb : CircuitBreaker) (st : CacheStats) (now : ℤ)
      (tr : List RetryEv),
      opCallsOf (retryGo cfg op attempt remaining cb st now tr).trace ≤
        opCallsOf tr + remaining := by
  intro remaining
  induction remaining with
  | zero =>
    intro attempt cb st now tr
    simp [retryGo]
  | succ r ih =>
    intro attempt cb st now tr
    unfold retryGo
    dsimp only
    split
    · split
      · unfold opCallsOf
        simp [List.countP_append]
        try omega
      · refine le_trans (ih (attempt + 1) _ _ _ _) ?_
        unfold opCallsOf
        simp [List.countP_append]
        try omega
    · split
      · unfold opCallsOf
        simp [List.countP_append]
        try omega
      · unfold opCallsOf
        simp [List.countP_append]
        try omega
      · split
        · unfold opCallsOf
          simp [List.countP_append]
          try omega
        · refine le_trans (ih (attempt + 1) _ _ _ _) ?_
          unfold opCallsOf
          simp [List.countP_append]
          try omega

/-- Claim C5 counterexample: the retry delays carry no jitter term.  With
`retry_delay = 1`, `max_retries = 2` and every attempt failing with an
application-level error, the recorded sleeps are exactly `[1, 2]` =
`[retry_delay * 2^0, retry_delay * 2^1]`; no nonzero per-attempt jitter can
be added to them. -/
theorem retry_no_jitter_counterexample :
    sleepsOf (withRetry ⟨2, 1⟩ (CircuitBreaker.init 5 30 0) CacheStats.init 0
      (fun _ => .otherErr)).trace = [1, 2] ∧
    ¬ ∃ jitter : Nat → ℤ, (∀ a, jitter a ≠ 0) ∧
      sleepsOf (withRetry ⟨2, 1⟩ (CircuitBreaker.init 5 30 0) CacheStats.init 0
        (fun _ => .otherErr)).trace =
        [1 * 2 ^ 0 + jitter 0, 1 * 2 ^ 1 + jitter 1] := by
  have h : sleepsOf (withRetry ⟨2, 1⟩ (CircuitBreaker.init 5 30 0) CacheStats.init 0
      (fun _ => .otherErr)).trace = [1, 2] := by decide
  refine ⟨h, ?_⟩
  rintro ⟨j, hj, heq⟩
  rw [h] at heq
  have h0 : (1 : ℤ) = 1 * 2 ^ 0 + j 0 := by
    have := List.head_eq_of_cons_eq heq
    simpa using this
  have : j 0 = 0 := by linarith [h0]
  exact hj 0 this

/-- Claim C5 amended: through `_with_retry`, a connection-error attempt is re-raised
immediately — it is always the last event of the trace and the call ends in
`connFail` — any other failure is retried, with at most `max_retries + 1`
operation invocations in total, and the delay before the retry following
attempt `i` is exactly `retry_delay * 2^i` (no jitter). -/
theorem with_retry_backoff_behavior (cfg : RetryCfg) (cb : CircuitBreaker)
    (st : CacheStats) (now : ℤ) (op : Nat → NetResult) :
    sleepsOf (withRetry cfg cb st now op).trace =
      (List.range (sleepsOf (withRetry cfg cb st now op).trace).length).map
        (fun i => cfg.retry_delay * 2 ^ i) ∧
    (∀ pre i post, (withRetry cfg cb st now op).trace =
        pre ++ .opCall i .connErr :: post →
      post = [] ∧ (withRetry cfg cb st now op).result = .connFail) ∧
    opCallsOf (withRetry cfg cb st now op).trace ≤ cfg.max_retries + 1 := by
  refine ⟨?_, ?_, ?_⟩
  · obtain ⟨k, hk⟩ := retryGo_sleeps cfg op (cfg.max_retries + 1) 0 cb st now []
    unfold withRetry
    rw [hk]
    simp only [sleepsOf, List.filterMap_nil, List.nil_append]
    rw [List.length_map, List.length_range]
    apply List.map_congr_left
    intro i _
    rw [Nat.zero_add]
  · intro pre i post htr
    unfold withRetry at htr ⊢
    rcases retryGo_connErr cfg op (cfg.max_retries + 1) 0 cb st now []
        (fun i h => (List.not_mem_nil _ h).elim) with
      ⟨hres, pre', i', htr', hpre'⟩ | ⟨hres, hnc⟩
    · refine ⟨?_, hres⟩
      rcases List.eq_nil_or_concat post with rfl | ⟨init, z, rfl⟩
      · rfl
      · exfalso
        have h2 : (retryGo cfg op 0 (cfg.max_retries + 1) cb st now []).trace =
            (pre ++ RetryEv.opCall i .connErr :: init) ++ [z] := by
          rw [htr]
          simp [List.concat_eq_append]
        have hd1 : ((retryGo cfg op 0 (cfg.max_retries + 1) cb st now []).trace).dropLast =
            pre' := by
          rw [htr', List.dropLast_concat]
        have hd2 : ((retryGo cfg op 0 (cfg.max_retries + 1) cb st now []).trace).dropLast =
            pre ++ RetryEv.opCall i .connErr :: init := by
          rw [h2, List.dropLast_concat]
        have hmem : RetryEv.opCall i .connErr ∈ pre' := by
          rw [← hd1, hd2]
          simp
        exact hpre' i hmem
    · exfalso
      refine hnc i ?_
      rw [htr]
      simp
  · have h := retryGo_opCalls cfg op (cfg.max_retries + 1) 0 cb st now []
    unfold withRetry
    simpa [opCallsOf] using h

/-- Closed witness for `with_retry_backoff_behavior`: a connection error on
the very first attempt ends the call immediately with `connFail`. -/
theorem with_retry_backoff_behavior_witness :
    ([] : List RetryEv) = [] ∧
    (withRetry ⟨1, 1⟩ (CircuitBreaker.init 5 30 0) CacheStats.init 0
      (fun _ => .connErr)).result = .connFail :=
  (with_retry_backoff_behavior ⟨1, 1⟩ (CircuitBreaker.init 5 30 0) CacheStats.init 0
    (fun _ => .connErr)).2.1 [] 0 [] (by decide)

/-! ## L1 store (`cachetools.TTLCache` as used by `multi_level_cache.py`)

`TTLCache(maxsize, ttl)`: entries ordered by insertion (equal to expiry
order, since the TTL is global), an entry set at time `t` expires once
`t + ttl ≤ now`, `__setitem__` first drops expired entries, re-inserts the
key at the back, and evicts from the front while over capacity (raising
`ValueError` when `maxsize` is zero); `get` returns `None` on a missing or
expired key. -/

structure L1Cache where
  maxsize : Nat
  ttl : ℤ
  entries : List (String × Value × ℤ)

/-- Evict from the front (oldest first) until at most `m` entries remain. -/
def dropOldest (es : List (String × Value × ℤ)) (m : Nat) : List (String × Value × ℤ) :=
  es.drop (es.length - m)

/-- `TTLCache.get`: `None` on a missing or expired key. -/
def L1Cache.get (c : L1Cache) (now : ℤ) (k : String) : Option Value :=
  match c.entries.find? (fun e => e.1 == k) with
  | some e => if now < e.2.2 then some e.2.1 else none
  | none => none

/-- `TTLCache.__setitem__`; `none` models the `ValueError` raised when the
entry cannot fit (`maxsize = 0`). -/
def L1Cache.set (c : L1Cache) (now : ℤ) (k : String) (v : Value) : Option L1Cache :=
  if c.maxsize = 0 then none
  else
    let live := c.entries.filter (fun e => decide (now < e.2.2))
    let without := live.filter (fun e => e.1 != k)
    some { c with entries := dropOldest (without ++ [(k, v, now + c.ttl)]) c.maxsize }

/-- `TTLCache.__delitem__` (total here: deleting an absent key is a no-op,
the caller guards with `in`/`try`). -/
def L1Cache.del (c : L1Cache) (k : String) : L1Cache :=
  { c with entries := c.entries.filter (fun e => e.1 != k) }

/-- `key in cache`: present and not expired. -/
def L1Cache.containsNow (c : L1Cache) (now : ℤ) (k : String) : Bool :=
  (c.get now k).isSome

/-- `list(cache.keys())`: the non-expired keys, in insertion order. -/
def L1Cache.keysNow (c : L1Cache) (now : ℤ) : List String :=
  (c.entries.filter (fun e => decide (now < e.2.2))).map (·.1)

/-! ## Wildcard matching (`fnmatch.fnmatch` / Redis `KEYS` globs)

Model of glob matching restricted to `*` and `?` (bracket classes are not
used anywhere in the repository); structurally recursive on a fuel bounded
by the combined length. -/

def fnmatchAux : Nat → List Char → List Char → Bool
  | 0, p, s => p.isEmpty && s.isEmpty
  | fuel + 1, p, s =>
    match p, s with
    | [], [] => true
    | [], _ :: _ => false
    | '*' :: ps, [] => fnmatchAux fuel ps []
    | '*' :: ps, _ :: cs => fnmatchAux fuel ps s || fnmatchAux fuel ('*' :: ps) cs
    | '?' :: ps, _ :: cs => fnmatchAux fuel ps cs
    | c :: ps, d :: cs => c == d && fnmatchAux fuel ps cs
    | _ :: _, [] => false

/-- `fnmatch.fnmatch(s, pat)` (POSIX case-sensitive behaviour). -/
def fnmatchStr (s pat : String) : Bool :=
  fnmatchAux (pat.data.length + s.data.length) pat.data s.data

/-- Python `s.startswith(p)` (character-level). -/
def strStartsWith (s p : String) : Bool := p.data.isPrefixOf s.data

/-- Python `s[n:]` (character-level). -/
def strDrop (s : String) (n : Nat) : String := String.mk (s.data.drop n)

/-! ## L2 client (`redis_cache.py` `UniversalRedisCache`) -/

/-- The cache configuration (`config.py` `CacheConfig`); the Redis node list
and password only matter to `connect` and are omitted. -/
structure CacheConfig where
  l1_max_size : Nat
  l1_default_ttl : ℤ
  business_lookup_ttl : ℤ
  knowledge_base_ttl : ℤ
  l2_default_ttl : ℤ
  compression_enabled : Bool
  compression_threshold : Nat
  max_retries : Nat
  retry_delay : ℤ
  circuit_breaker_threshold : Nat
  circuit_breaker_timeout : ℤ

def CacheConfig.serCfg (c : CacheConfig) : SerCfg :=
  ⟨c.compression_enabled, c.compression_threshold⟩

def CacheConfig.retryCfg (c : CacheConfig) : RetryCfg :=
  ⟨c.max_retries, c.retry_delay⟩

/-- `_get_cache_key`: `"voice_bot:<cache_type>:<key>"`. -/
def redisKey (key cache_type : String) : String :=
  "voice_bot:" ++ cache_type ++ ":" ++ key

/-- State of the `UniversalRedisCache`: connection flag, the Redis keyspace
(serialized bytes with the server-side TTL from `setex`), and the breaker. -/
structure L2State where
  connected : Bool
  store : List (String × List MByte × ℤ)
  breaker : CircuitBreaker

def storeGet (store : List (String × List MByte × ℤ)) (k : String) : Option (List MByte) :=
  (store.find? (fun e => e.1 == k)).map (·.2.1)

def storeSet (store : List (String × List MByte × ℤ)) (k : String) (data : List MByte)
    (ttl : ℤ) : List (String × List MByte × ℤ) :=
  store.filter (fun e => e.1 != k) ++ [(k, data, ttl)]

/-- `UniversalRedisCache.get`: `None` when disconnected; otherwise a
retry-wrapped `GET` followed by `_deserialize`, with every exception caught
(the deserialize failure records `deserialization_error` inside
`_deserialize` and `redis_get_error` in `get`'s handler, and yields `None`).
`netG i` is the network outcome of attempt `i`. -/
def redisGet (cfg : CacheConfig) (l2 : L2State) (st : CacheStats) (now : ℤ)
    (key cache_type : String) (netG : Nat → NetResult) :
    Option Value × L2State × CacheStats :=
  if l2.connected = false then (none, l2, st)
  else
    let r := withRetry cfg.retryCfg l2.breaker st now netG
    let l2' := { l2 with breaker := r.cb }
    match r.result with
    | .success =>
      match storeGet l2.store (redisKey key cache_type) with
      | none => (none, l2', r.stats)
      | some data =>
        match deserialize data with
        | some v => (some v, l2', r.stats)
        | none => (none, l2', r.stats.record_error.record_error)
    | _ => (none, l2', r.stats.record_error)

/-- `UniversalRedisCache.set`: `False` when disconnected; `ttl or
l2_default_ttl`; serialize (recording a compression save when the marker
branch fires), then a retry-wrapped `SETEX`; every exception is caught and
recorded as `redis_set_error`, returning `False`. -/
def redisSet (cfg : CacheConfig) (l2 : L2State) (st : CacheStats) (now : ℤ)
    (key : String) (v : Value) (ttl : Option ℤ) (cache_type : String)
    (netS : Nat → NetResult) : Bool × L2State × CacheStats :=
  if l2.connected = false then (false, l2, st)
  else
    let ettl := match ttl with
      | none => cfg.l2_default_ttl
      | some t => if t = 0 then cfg.l2_default_ttl else t
    let sf := serializeFlag cfg.serCfg v
    let st1 := if sf.2 then st.record_compression_save else st
    let r := withRetry cfg.retryCfg l2.breaker st1 now netS
    match r.result with
    | .success =>
      let l2' := { l2 with breaker := r.cb }
      (true, { l2' with store := storeSet l2.store (redisKey key cache_type) sf.1 ettl },
        r.stats)
    | _ => (false, { l2 with breaker := r.cb }, r.stats.record_error)

/-- `UniversalRedisCache.clear_pattern`: `0` when disconnected; `KEYS` with
the namespaced glob, then batched deletes.  The happy path is modelled
(deleting every matching key and returning the count); a network failure
mid-loop is answered by the `except` with `0` and is not modelled. -/
def redisClearPattern (l2 : L2State) (pattern cache_type : String) : Nat × L2State :=
  if l2.connected = false then (0, l2)
  else
    let fullPat := redisKey pattern cache_type
    ((l2.store.filter (fun e => fnmatchStr e.1 fullPat)).length,
      { l2 with store := l2.store.filter (fun e => !(fnmatchStr e.1 fullPat)) })

/-! ## Coordinator (`multi_level_cache.py` `MultiLevelCache`) -/

structure MLC where
  cfg : CacheConfig
  l1 : L1Cache
  l2 : L2State
  stats : CacheStats

/-- `_get_ttl_for_type`: the category TTL table with `l1_default_ttl` as the
fallback. -/
def ttlForType (cfg : CacheConfig) (cache_type : String) : ℤ :=
  if cache_type = "business_lookup" then cfg.business_lookup_ttl
  else if cache_type = "knowledge_base" then cfg.knowledge_base_ttl
  else if cache_type = "default" then cfg.l1_default_ttl
  else cfg.l1_default_ttl

/-- `_get_l1_key`: `"<cache_type>:<key>"`. -/
def l1Key (key cache_type : String) : String := cache_type ++ ":" ++ key

/-- `_cache_value` (the fire-and-forget write-back task, modelled as running
immediately): best-effort L1 insert (failure only logged), then the L2 set
(its own failure handling inside `redisSet`). -/
def mlcCacheValue (m : MLC) (now : ℤ) (key : String) (v : Value) (ttl : ℤ)
    (cache_type : String) (netS : Nat → NetResult) : MLC :=
  let l1' := match m.l1.set now (l1Key key cache_type) v with
    | some c => c
    | none => m.l1
  let r := redisSet m.cfg m.l2 m.stats now key v (some ttl) cache_type netS
  { m with l1 := l1', l2 := r.2.1, stats := r.2.2 }

/-- The compute tail of `get`: run `compute_func` (modelled by the value it
returns; `none` means no function was supplied), record the compute, schedule
the write-back, return the value; with no function, return `None`. -/
def mlcGetCompute (m : MLC) (now : ℤ) (key : String) (compute : Option Value)
    (ttl : ℤ) (cache_type : String) (netS : Nat → NetResult) : Value × MLC :=
  match compute with
  | some v =>
    let m1 := { m with stats := m.stats.record_compute }
    (v, mlcCacheValue m1 now key v ttl cache_type netS)
  | none => (.null, m)

/-- The L2 tail of `get`: `l2_cache.get`, the `value is not None` hit test,
L1 backfill on a hit (failure only logged), miss accounting, then compute. -/
def mlcGetL2 (m : MLC) (now : ℤ) (key : String) (compute : Option Value)
    (ttl : ℤ) (cache_type : String) (netG netS : Nat → NetResult) : Value × MLC :=
  let r := redisGet m.cfg m.l2 m.stats now key cache_type netG
  let m1 := { m with l2 := r.2.1, stats := r.2.2 }
  match r.1 with
  | some v =>
    if v.isNull then
      mlcGetCompute { m1 with stats := m1.stats.record_l2_miss } now key compute ttl
        cache_type netS
    else
      let m2 := { m1 with stats := m1.stats.record_l2_hit }
      let m3 := match m2.l1.set now (l1Key key cache_type) v with
        | some c => { m2 with l1 := c }
        | none => m2
      (v, m3)
  | none =>
    mlcGetCompute { m1 with stats := m1.stats.record_l2_miss } now key compute ttl
      cache_type netS

/-- `MultiLevelCache.get`: L1 (`value is not None` hit test, hit/miss
accounting), then L2, then compute.  Returns the Python return value
(`Value.null` for `None`). -/
def mlcGet (m : MLC) (now : ℤ) (key : String) (compute : Option Value)
    (cache_type : String) (netG netS : Nat → NetResult) : Value × MLC :=
  let ttl := ttlForType m.cfg cache_type
  match m.l1.get now (l1Key key cache_type) with
  | some v =>
    if v.isNull then
      mlcGetL2 { m with stats := m.stats.record_l1_miss } now key compute ttl
        cache_type netG netS
    else (v, { m with stats := m.stats.record_l1_hit })
  | none =>
    mlcGetL2 { m with stats := m.stats.record_l1_miss } now key compute ttl
      cache_type netG netS

/-- `MultiLevelCache.set`: unconditional L1 write (failure recorded as
`l1_set_error` and swallowed), then the L2 write, whose boolean is the
return value (`False` when the L2 set failed or raised). -/
def mlcSet (m : MLC) (now : ℤ) (key : String) (v : Value) (cache_type : String)
    (netS : Nat → NetResult) : Bool × MLC :=
  let s1 := match m.l1.set now (l1Key key cache_type) v with
    | some c => (c, m.stats)
    | none => (m.l1, m.stats.record_error)
  let r := redisSet m.cfg m.l2 s1.2 now key v (some (ttlForType m.cfg cache_type))
    cache_type netS
  (r.1, { m with l1 := s1.1, l2 := r.2.1, stats := r.2.2 })

/-- `MultiLevelCache.clear_pattern`: collect the non-expired L1 keys in the
category whose suffix matches the glob, delete them, add the L2 pattern-clear
count. -/
def mlcClearPattern (m : MLC) (now : ℤ) (pattern cache_type : String) : Nat × MLC :=
  let pfx := cache_type ++ ":"
  let keysToDelete := (m.l1.keysNow now).filter
    (fun k => strStartsWith k pfx && fnmatchStr (strDrop k pfx.length) pattern)
  let l1' := keysToDelete.foldl (fun c k => c.del k) m.l1
  let r := redisClearPattern m.l2 pattern cache_type
  (keysToDelete.length + r.1, { m with l1 := l1', l2 := r.2 })

/-! ### Support lemmas -/

theorem L1Cache.set_get (c : L1Cache) (now : ℤ) (k : String) (v : Value)
    (hmax : 0 < c.maxsize) (httl : 0 < c.ttl) :
    ∃ c', c.set now k v = some c' ∧ c'.get now k = some v := by
  unfold L1Cache.set
  rw [if_neg (by omega)]
  refine ⟨_, rfl, ?_⟩
  unfold L1Cache.get
  set without := (c.entries.filter (fun e => decide (now < e.2.2))).filter
    (fun e => e.1 != k) with hw
  have hkeys : ∀ x ∈ without, (x.1 == k) = false := by
    intro x hx
    rw [hw, List.mem_filter] at hx
    have := hx.2
    rcases hbe : x.1 == k with _ | _
    · rfl
    · rw [bne, hbe] at this
      exact absurd this (by simp)
  have hsplit : dropOldest (without ++ [(k, v, now + c.ttl)]) c.maxsize =
      without.drop ((without ++ [(k, v, now + c.ttl)]).length - c.maxsize) ++
        [(k, v, now + c.ttl)] := by
    unfold dropOldest
    rw [List.drop_append_of_le_length]
    rw [List.length_append, List.length_singleton]
    omega
  rw [hsplit]
  have hfind : (without.drop ((without ++ [(k, v, now + c.ttl)]).length - c.maxsize) ++
      [(k, v, now + c.ttl)]).find? (fun e => e.1 == k) = some (k, v, now + c.ttl) := by
    rw [List.find?_append]
    have hnone : (without.drop ((without ++ [(k, v, now + c.ttl)]).length -
        c.maxsize)).find? (fun e => e.1 == k) = none := by
      rw [List.find?_eq_none]
      intro x hx
      have hx' : x ∈ without := (List.drop_sublist _ _).mem hx
      rw [hkeys x hx']
      simp
    rw [hnone]
    simp [List.find?]
  rw [hfind]
  dsimp only
  rw [if_pos (by omega)]

theorem L1Cache.get_del_self (c : L1Cache) (now : ℤ) (k : String) :
    (c.del k).get now k = none := by
  unfold L1Cache.del L1Cache.get
  have hnone : (c.entries.filter (fun e => e.1 != k)).find? (fun e => e.1 == k) = none := by
    rw [List.find?_eq_none]
    intro x hx
    rw [List.mem_filter] at hx
    have := hx.2
    rcases hbe : x.1 == k with _ | _
    · simp
    · rw [bne, hbe] at this
      exact absurd this (by simp)
  rw [hnone]

theorem storeGet_storeSet (store : List (String × List MByte × ℤ)) (k : String)
    (data : List MByte) (ttl : ℤ) :
    storeGet (storeSet store k data ttl) k = some data := by
  unfold storeGet storeSet
  rw [List.find?_append]
  have hnone : (store.filter (fun e => e.1 != k)).find? (fun e => e.1 == k) = none := by
    rw [List.find?_eq_none]
    intro x hx
    rw [List.mem_filter] at hx
    have := hx.2
    rcases hbe : x.1 == k with _ | _
    · simp
    · rw [bne, hbe] at this
      exact absurd this (by simp)
  rw [hnone]
  simp [List.find?]

/-- A first attempt that succeeds with the breaker closed: `_with_retry`
returns at once, recording the success. -/
theorem withRetry_first_ok (cfg : RetryCfg) (cb : CircuitBreaker) (st : CacheStats)
    (now : ℤ) (op : Nat → NetResult) (hcb : cb.state = .CLOSED) (hop : op 0 = .ok) :
    withRetry cfg cb st now op =
      ⟨.success, cb.record_success now, st, now, [.opCall 0 .ok]⟩ := by
  unfold withRetry
  have hio : cb.is_open now = (false, cb) := by
    unfold CircuitBreaker.is_open
    rw [if_neg (by rw [hcb]; simp)]
  unfold retryGo
  dsimp only
  rw [hio, hop]
  rfl

theorem retryGo_stats_preserved (cfg : RetryCfg) (op : Nat → NetResult) :
    ∀ (remaining attempt : Nat) (cb : CircuitBreaker) (st : CacheStats) (now : ℤ)
      (tr : List RetryEv),
      (retryGo cfg op attempt remaining cb st now tr).stats.l1_hits = st.l1_hits ∧
      (retryGo cfg op attempt remaining cb st now tr).stats.l1_misses = st.l1_misses ∧
      (retryGo cfg op attempt remaining cb st now tr).stats.l2_hits = st.l2_hits ∧
      (retryGo cfg op attempt remaining cb st now tr).stats.l2_misses = st.l2_misses ∧
      (retryGo cfg op attempt remaining cb st now tr).stats.compute_hits = st.compute_hits := by
  intro remaining
  induction remaining with
  | zero =>
    intro attempt cb st now tr
    simp [retryGo, CacheStats.record_circuit_breaker_trip]
  | succ r ih =>
    intro attempt cb st now tr
    unfold retryGo
    dsimp only
    split
    · split
      · simp [CacheStats.record_circuit_breaker_trip, CacheStats.record_error]
      · have h := ih (attempt + 1) (cb.is_open now).2 st.record_error
          (now + cfg.retry_delay * 2 ^ attempt)
          ((tr ++ [.cbReject attempt]) ++ [.slept (cfg.retry_delay * 2 ^ attempt)])
        simpa [CacheStats.record_error] using h
    · split
      · simp
      · simp [CacheStats.record_error]
      · split
        · simp [CacheStats.record_circuit_breaker_trip, CacheStats.record_error]
        · have h := ih (attempt + 1) ((cb.is_open now).2.record_failure now)
            st.record_error (now + cfg.retry_delay * 2 ^ attempt)
            ((tr ++ [.opCall attempt .otherErr]) ++ [.slept (cfg.retry_delay * 2 ^ attempt)])
          simpa [CacheStats.record_error] using h

theorem redisSet_stats_preserved (cfg : CacheConfig) (l2 : L2State) (st : CacheStats)
    (now : ℤ) (key : String) (v : Value) (ttl : Option ℤ) (ct : String)
    (netS : Nat → NetResult) :
    (redisSet cfg l2 st now key v ttl ct netS).2.2.l1_hits = st.l1_hits ∧
    (redisSet cfg l2 st now key v ttl ct netS).2.2.l1_misses = st.l1_misses ∧
    (redisSet cfg l2 st now key v ttl ct netS).2.2.l2_hits = st.l2_hits ∧
    (redisSet cfg l2 st now key v ttl ct netS).2.2.l2_misses = st.l2_misses ∧
    (redisSet cfg l2 st now key v ttl ct netS).2.2.compute_hits = st.compute_hits := by
  unfold redisSet
  split
  · exact ⟨rfl, rfl, rfl, rfl, rfl⟩
  · dsimp only
    obtain ⟨h1, h2, h3, h4, h5⟩ := retryGo_stats_preserved cfg.retryCfg netS
      (cfg.retryCfg.max_retries + 1) 0 l2.breaker
      (if (serializeFlag cfg.serCfg v).2 then st.record_compression_save else st) now []
    obtain ⟨g1, g2, g3, g4, g5⟩ :
        (if (serializeFlag cfg.serCfg v).2 then st.record_compression_save else st).l1_hits
            = st.l1_hits ∧
          (if (serializeFlag cfg.serCfg v).2 then st.record_compression_save
            else st).l1_misses = st.l1_misses ∧
          (if (serializeFlag cfg.serCfg v).2 then st.record_compression_save
            else st).l2_hits = st.l2_hits ∧
          (if (serializeFlag cfg.serCfg v).2 then st.record_compression_save
            else st).l2_misses = st.l2_misses ∧
          (if (serializeFlag cfg.serCfg v).2 then st.record_compression_save
            else st).compute_hits = st.compute_hits := by
      cases (serializeFlag cfg.serCfg v).2 <;> exact ⟨rfl, rfl, rfl, rfl, rfl⟩
    split
    · exact ⟨h1.trans g1, h2.trans g2, h3.trans g3, h4.trans g4, h5.trans g5⟩
    · refine ⟨?_, ?_, ?_, ?_, ?_⟩ <;>
        simp only [CacheStats.record_error] <;>
        first
          | exact h1.trans g1
          | exact h2.trans g2
          | exact h3.trans g3
          | exact h4.trans g4
          | exact h5.trans g5

/-! ### Concrete fixtures for counterexamples and witnesses -/

/-- The default `CacheConfig` with small retry numbers. -/
def cfgEx : CacheConfig :=
  { l1_max_size := 10, l1_default_ttl := 60, business_lookup_ttl := 1800,
    knowledge_base_ttl := 3600, l2_default_ttl := 3600, compression_enabled := true,
    compression_threshold := 1024, max_retries := 2, retry_delay := 1,
    circuit_breaker_threshold := 5, circuit_breaker_timeout := 30 }

/-- An empty L1 store of capacity 10 and TTL 60. -/
def l1Ex : L1Cache := { maxsize := 10, ttl := 60, entries := [] }

/-- A coordinator whose L2 client is disconnected. -/
def mlcDisc : MLC :=
  { cfg := cfgEx, l1 := l1Ex,
    l2 := { connected := false, store := [], breaker := CircuitBreaker.init 5 30 0 },
    stats := CacheStats.init }

/-- A coordinator whose L2 client is connected, with the given keyspace. -/
def mlcConn (store : List (String × List MByte × ℤ)) : MLC :=
  { cfg := cfgEx, l1 := l1Ex,
    l2 := { connected := true, store := store, breaker := CircuitBreaker.init 5 30 0 },
    stats := CacheStats.init }

/-- The all-success network oracle. -/
def netOk : Nat → NetResult := fun _ => .ok

/-- After `MultiLevelCache.set`, the value is readable from L1 under the
namespaced key (shared helper). -/
theorem mlcSet_l1_get (m : MLC) (now : ℤ) (key : String) (v : Value) (ct : String)
    (netS : Nat → NetResult) (hmax : 0 < m.l1.maxsize) (httl : 0 < m.l1.ttl) :
    (mlcSet m now key v ct netS).2.l1.get now (l1Key key ct) = some v := by
  obtain ⟨c', hset, hget⟩ := L1Cache.set_get m.l1 now (l1Key key ct) v hmax httl
  unfold mlcSet
  rw [hset]
  dsimp only
  exact hget

/-- An L1 hit (a stored non-`None` value) makes `get` return at once with an
L1-hit stat and no other effect (shared helper). -/
theorem mlcGet_l1_hit (m : MLC) (now : ℤ) (key : String) (v : Value)
    (compute : Option Value) (ct : String) (netG netS : Nat → NetResult)
    (hget : m.l1.get now (l1Key key ct) = some v) (hv : v.isNull = false) :
    mlcGet m now key compute ct netG netS =
      (v, { m with stats := m.stats.record_l1_hit }) := by
  unfold mlcGet
  rw [hget]
  dsimp only
  rw [hv]
  rfl

/-- Claim C1 counterexample: `set` does not return the L1 outcome.  With L2
disconnected, the L1 write succeeds (the value is immediately readable from
L1) yet `set` returns `False` — the return value is the L2 result, so an L2
failure does change it. -/
theorem set_returns_l2_result_counterexample :
    (mlcSet mlcDisc 0 "k" (.int 1) "default" netOk).1 = false ∧
    (mlcSet mlcDisc 0 "k" (.int 1) "default" netOk).2.l1.get 0 (l1Key "k" "default") =
      some (.int 1) := by
  constructor
  · rfl
  · rfl

/-- Claim C1 amended: `set` writes the value into L1 unconditionally (whenever the
L1 store can hold an entry, the value is immediately readable from L1
regardless of the returned boolean), no exception escapes (the function is
total), and the return value is the L2 write's outcome: `False` whenever L2
is disconnected — even though the L1 write succeeded — and `True` when the
L2 write goes through. -/
theorem set_l1_unconditional_returns_l2_outcome (m : MLC) (now : ℤ) (key : String)
    (v : Value) (ct : String) (netS : Nat → NetResult)
    (hmax : 0 < m.l1.maxsize) (httl : 0 < m.l1.ttl) :
    ((mlcSet m now key v ct netS).2.l1.get now (l1Key key ct) = some v) ∧
    (m.l2.connected = false → (mlcSet m now key v ct netS).1 = false) ∧
    (m.l2.connected = true → m.l2.breaker.state = .CLOSED → netS 0 = .ok →
      (mlcSet m now key v ct netS).1 = true ∧
      storeGet (mlcSet m now key v ct netS).2.l2.store (redisKey key ct) =
        some (serialize m.cfg.serCfg v)) := by
  obtain ⟨c', hset, hget⟩ := L1Cache.set_get m.l1 now (l1Key key ct) v hmax httl
  refine ⟨mlcSet_l1_get m now key v ct netS hmax httl, ?_, ?_⟩
  · intro hdisc
    unfold mlcSet redisSet
    rw [hset, hdisc]
    rfl
  · intro hconn hcb hnet
    have hretry := withRetry_first_ok m.cfg.retryCfg m.l2.breaker
      (if (serializeFlag m.cfg.serCfg v).2 then m.stats.record_compression_save
        else m.stats) now netS hcb hnet
    constructor
    · unfold mlcSet redisSet
      rw [hset, hconn]
      dsimp only
      rw [if_neg (by simp), hretry]
    · unfold mlcSet redisSet
      rw [hset, hconn]
      dsimp only
      rw [if_neg (by simp), hretry]
      dsimp only
      rw [storeGet_storeSet]
      rfl

/-- Closed witness for `set_l1_unconditional_returns_l2_outcome` at the
disconnected fixture. -/
theorem set_l1_unconditional_returns_l2_outcome_witness :
    (mlcSet mlcDisc 0 "k" (.int 2) "default" netOk).2.l1.get 0 (l1Key "k" "default") =
      some (.int 2) ∧
    (mlcSet mlcDisc 0 "k" (.int 2) "default" netOk).1 = false :=
  ⟨(set_l1_unconditional_returns_l2_outcome mlcDisc 0 "k" (.int 2) "default" netOk
      (by decide) (by decide)).1,
   (set_l1_unconditional_returns_l2_outcome mlcDisc 0 "k" (.int 2) "default" netOk
      (by decide) (by decide)).2.1 rfl⟩

/-- Claim C2 counterexample: a stored value that cannot be deserialized yields
`None` from the L2 `get` instead of an error reaching `get`'s caller.  The
byte string `[5]` decodes as neither JSON nor pickle, `_deserialize` raises
(`deserialize [5] = none`), yet `get` returns `None`. -/
theorem deserialize_error_swallowed_counterexample :
    deserialize [5] = none ∧
    (redisGet cfgEx (mlcConn [(redisKey "k" "default", [5], 60)]).l2 CacheStats.init 0
      "k" "default" netOk).1 = none := by
  constructor
  · rfl
  · rfl

/-- Claim C2 amended: `_deserialize` does signal a hard error on undecodable bytes
(recording `deserialization_error`), but `UniversalRedisCache.get` catches
every exception, additionally records `redis_get_error`, and returns `None`
to its caller: two error counts and an absent result, not a propagated
exception. -/
theorem deserialize_error_caught_by_get (cfg : CacheConfig) (l2 : L2State)
    (st : CacheStats) (now : ℤ) (key ct : String) (netG : Nat → NetResult)
    (data : List MByte) (hconn : l2.connected = true)
    (hcb : l2.breaker.state = .CLOSED) (hnet : netG 0 = .ok)
    (hdata : storeGet l2.store (redisKey key ct) = some data)
    (hbad : deserialize data = none) :
    (redisGet cfg l2 st now key ct netG).1 = none ∧
    (redisGet cfg l2 st now key ct netG).2.2.errors = st.errors + 2 := by
  have hretry := withRetry_first_ok cfg.retryCfg l2.breaker st now netG hcb hnet
  constructor
  · unfold redisGet
    rw [hconn]
    dsimp only
    rw [hretry]
    dsimp only
    rw [hdata]
    dsimp only
    rw [hbad]
    rfl
  · unfold redisGet
    rw [hconn]
    dsimp only
    rw [hretry]
    dsimp only
    rw [hdata]
    dsimp only
    rw [hbad]
    rfl

/-- Closed witness for `deserialize_error_caught_by_get` at the `[5]` store. -/
theorem deserialize_error_caught_by_get_witness :
    (redisGet cfgEx (mlcConn [(redisKey "k" "default", [5], 60)]).l2 CacheStats.init 0
      "k" "default" netOk).1 = none ∧
    (redisGet cfgEx (mlcConn [(redisKey "k" "default", [5], 60)]).l2 CacheStats.init 0
      "k" "default" netOk).2.2.errors = CacheStats.init.errors + 2 :=
  deserialize_error_caught_by_get cfgEx (mlcConn [(redisKey "k" "default", [5], 60)]).l2
    CacheStats.init 0 "k" "default" netOk [5] rfl rfl rfl (by rfl) (by rfl)

/-- Claim C8 counterexample: read-your-write is not L1-served for `V = None`.
After `set(k, None, default)` the immediate `get` does return `None` (= V),
but it is treated as an L1 miss (no L1 hit is recorded, the miss counter
moves), so it is not "served from L1". -/
theorem read_your_write_null_counterexample :
    (mlcGet (mlcSet mlcDisc 0 "k" .null "default" netOk).2 0 "k" none "default"
      netOk netOk).1 = Value.null ∧
    (mlcGet (mlcSet mlcDisc 0 "k" .null "default" netOk).2 0 "k" none "default"
      netOk netOk).2.stats.l1_hits = 0 ∧
    (mlcGet (mlcSet mlcDisc 0 "k" .null "default" netOk).2 0 "k" none "default"
      netOk netOk).2.stats.l1_misses = 1 := by
  refine ⟨rfl, rfl, rfl⟩

/-- Claim C8 amended: for every non-`None` value, `set(K, V, C)` followed
immediately by `get(K, C)` (same clock reading, so before any TTL expiry, and
the fresh entry cannot have been capacity-evicted) returns `V` served from
L1: an L1 hit is recorded, no L1 miss, no L2 traffic, no compute. -/
theorem read_your_write_served_from_l1 (m : MLC) (now : ℤ) (key : String) (v : Value)
    (ct : String) (netS netG netS2 : Nat → NetResult) (hv : v.isNull = false)
    (hmax : 0 < m.l1.maxsize) (httl : 0 < m.l1.ttl) :
    (mlcGet (mlcSet m now key v ct netS).2 now key none ct netG netS2).1 = v ∧
    (mlcGet (mlcSet m now key v ct netS).2 now key none ct netG netS2).2.stats.l1_hits =
      (mlcSet m now key v ct netS).2.stats.l1_hits + 1 ∧
    (mlcGet (mlcSet m now key v ct netS).2 now key none ct netG netS2).2.stats.l1_misses =
      (mlcSet m now key v ct netS).2.stats.l1_misses ∧
    (mlcGet (mlcSet m now key v ct netS).2 now key none ct netG netS2).2.stats.l2_hits =
      (mlcSet m now key v ct netS).2.stats.l2_hits ∧
    (mlcGet (mlcSet m now key v ct netS).2 now key none ct netG netS2).2.stats.l2_misses =
      (mlcSet m now key v ct netS).2.stats.l2_misses ∧
    (mlcGet (mlcSet m now key v ct netS).2 now key none ct netG netS2).2.stats.compute_hits =
      (mlcSet m now key v ct netS).2.stats.compute_hits ∧
    (mlcGet (mlcSet m now key v ct netS).2 now key none ct netG netS2).2.l2 =
      (mlcSet m now key v ct netS).2.l2 := by
  have hget := mlcSet_l1_get m now key v ct netS hmax httl
  have hhit := mlcGet_l1_hit (mlcSet m now key v ct netS).2 now key v none ct netG netS2
    hget hv
  rw [hhit]
  exact ⟨rfl, rfl, rfl, rfl, rfl, rfl, rfl⟩

/-- Closed witness for `read_your_write_served_from_l1`: a concrete set-get
pair at the disconnected fixture. -/
theorem read_your_write_served_from_l1_witness :
    (mlcGet (mlcSet mlcDisc 0 "k" (.str "w") "default" netOk).2 0 "k" none "default"
      netOk netOk).1 = Value.str "w" ∧
    (mlcGet (mlcSet mlcDisc 0 "k" (.str "w") "default" netOk).2 0 "k" none "default"
      netOk netOk).2.stats.l1_hits =
      (mlcSet mlcDisc 0 "k" (.str "w") "default" netOk).2.stats.l1_hits + 1 :=
  ⟨(read_your_write_served_from_l1 mlcDisc 0 "k" (.str "w") "default" netOk netOk netOk
      rfl (by decide) (by decide)).1,
   (read_your_write_served_from_l1 mlcDisc 0 "k" (.str "w") "default" netOk netOk netOk
      rfl (by decide) (by decide)).2.1⟩

theorem redisGet_stats_preserved (cfg : CacheConfig) (l2 : L2State) (st : CacheStats)
    (now : ℤ) (key ct : String) (netG : Nat → NetResult) :
    (redisGet cfg l2 st now key ct netG).2.2.l1_hits = st.l1_hits ∧
    (redisGet cfg l2 st now key ct netG).2.2.l1_misses = st.l1_misses ∧
    (redisGet cfg l2 st now key ct netG).2.2.l2_hits = st.l2_hits ∧
    (redisGet cfg l2 st now key ct netG).2.2.l2_misses = st.l2_misses ∧
    (redisGet cfg l2 st now key ct netG).2.2.compute_hits = st.compute_hits := by
  unfold redisGet
  split
  · exact ⟨rfl, rfl, rfl, rfl, rfl⟩
  · dsimp only
    obtain ⟨h1, h2, h3, h4, h5⟩ := retryGo_stats_preserved cfg.retryCfg netG
      (cfg.retryCfg.max_retries + 1) 0 l2.breaker st now []
    split
    · split
      · exact ⟨h1, h2, h3, h4, h5⟩
      · split
        · exact ⟨h1, h2, h3, h4, h5⟩
        · exact ⟨h1, h2, h3, h4, h5⟩
    · refine ⟨?_, ?_, ?_, ?_, ?_⟩ <;>
        simp only [CacheStats.record_error] <;>
        first
          | exact h1
          | exact h2
          | exact h3
          | exact h4
          | exact h5

/-- The compute tail: value returned and stats effect (a compute count when a
function was supplied, plus the write-back's own error/compression stats,
which never touch the hit/miss/compute counters beyond that). -/
theorem mlcGetCompute_spec (m : MLC) (now : ℤ) (key : String) (compute : Option Value)
    (ttl : ℤ) (ct : String) (netS : Nat → NetResult) :
    (mlcGetCompute m now key compute ttl ct netS).1 =
      (match compute with | some w => w | none => .null) ∧
    (mlcGetCompute m now key compute ttl ct netS).2.stats.l1_hits = m.stats.l1_hits ∧
    (mlcGetCompute m now key compute ttl ct netS).2.stats.l1_misses = m.stats.l1_misses ∧
    (mlcGetCompute m now key compute ttl ct netS).2.stats.l2_hits = m.stats.l2_hits ∧
    (mlcGetCompute m now key compute ttl ct netS).2.stats.l2_misses = m.stats.l2_misses ∧
    (mlcGetCompute m now key compute ttl ct netS).2.stats.compute_hits =
      m.stats.compute_hits + (if compute.isSome then 1 else 0) := by
  cases compute with
  | none => exact ⟨rfl, rfl, rfl, rfl, rfl, rfl⟩
  | some w =>
    unfold mlcGetCompute mlcCacheValue
    dsimp only
    obtain ⟨q1, q2, q3, q4, q5⟩ := redisSet_stats_preserved m.cfg m.l2
      m.stats.record_compute now key w (some ttl) ct netS
    exact ⟨rfl, q1, q2, q3, q4, by rw [q5]; rfl⟩

/-- `mlcGetL2` never changes the L1 hit/miss counters. -/
theorem mlcGetL2_stats_l1 (m : MLC) (now : ℤ) (key : String) (compute : Option Value)
    (ttl : ℤ) (ct : String) (netG netS : Nat → NetResult) :
    (mlcGetL2 m now key compute ttl ct netG netS).2.stats.l1_misses = m.stats.l1_misses ∧
    (mlcGetL2 m now key compute ttl ct netG netS).2.stats.l1_hits = m.stats.l1_hits := by
  obtain ⟨p1, p2, p3, p4, p5⟩ := redisGet_stats_preserved m.cfg m.l2 m.stats now key ct netG
  unfold mlcGetL2
  dsimp only
  split
  · rename_i v heq
    split
    · refine ⟨?_, ?_⟩
      · exact ((mlcGetCompute_spec _ now key compute ttl ct netS).2.2.1).trans
          (by simpa [CacheStats.record_l2_miss] using p2)
      · exact ((mlcGetCompute_spec _ now key compute ttl ct netS).2.1).trans
          (by simpa [CacheStats.record_l2_miss] using p1)
    · refine ⟨?_, ?_⟩
      · rcases m.l1.set now (l1Key key ct) v with _ | c <;>
          simpa [CacheStats.record_l2_hit] using p2
      · rcases m.l1.set now (l1Key key ct) v with _ | c <;>
          simpa [CacheStats.record_l2_hit] using p1
  · refine ⟨?_, ?_⟩
    · exact ((mlcGetCompute_spec _ now key compute ttl ct netS).2.2.1).trans
        (by simpa [CacheStats.record_l2_miss] using p2)
    · exact ((mlcGetCompute_spec _ now key compute ttl ct netS).2.1).trans
        (by simpa [CacheStats.record_l2_miss] using p1)

/-- `mlcGetL2`'s returned value, final stats and final L2 state never read
the L1 store (they only write it). -/
theorem mlcGetL2_l1_indep (cfg : CacheConfig) (l1a l1b : L1Cache) (l2s : L2State)
    (st : CacheStats) (now : ℤ) (key : String) (compute : Option Value) (ttl : ℤ)
    (ct : String) (netG netS : Nat → NetResult) :
    (mlcGetL2 ⟨cfg, l1a, l2s, st⟩ now key compute ttl ct netG netS).1 =
      (mlcGetL2 ⟨cfg, l1b, l2s, st⟩ now key compute ttl ct netG netS).1 ∧
    (mlcGetL2 ⟨cfg, l1a, l2s, st⟩ now key compute ttl ct netG netS).2.stats =
      (mlcGetL2 ⟨cfg, l1b, l2s, st⟩ now key compute ttl ct netG netS).2.stats ∧
    (mlcGetL2 ⟨cfg, l1a, l2s, st⟩ now key compute ttl ct netG netS).2.l2 =
      (mlcGetL2 ⟨cfg, l1b, l2s, st⟩ now key compute ttl ct netG netS).2.l2 := by
  unfold mlcGetL2 mlcGetCompute mlcCacheValue
  dsimp only
  rcases (redisGet cfg l2s st now key ct netG) with ⟨v?, l2', st'⟩
  dsimp only
  cases v? with
  | none =>
    cases compute with
    | none => exact ⟨rfl, rfl, rfl⟩
    | some w => exact ⟨rfl, rfl, rfl⟩
  | some v =>
    dsimp only
    cases hb : v.isNull with
    | true =>
      cases compute with
      | none => exact ⟨rfl, rfl, rfl⟩
      | some w => exact ⟨rfl, rfl, rfl⟩
    | false =>
      refine ⟨rfl, ?_, ?_⟩ <;>
        rcases l1a.set now (l1Key key ct) v with _ | ca <;>
        rcases l1b.set now (l1Key key ct) v with _ | cb <;>
        rfl

/-- Claim C9: a stored `None` is a miss.  If the L1 entry for the key holds `None`,
`get` records an L1 miss (never a hit) and behaves — in returned value, final
stats and final L2 state — exactly as if the key were absent from L1; and
when the L2-stored bytes deserialize to `None`, an L2 miss is recorded and
the call falls through to the compute function (returning `None` without
one), so a `None` value is indistinguishable from an absent key at the `get`
interface. -/
theorem none_value_treated_as_miss (m : MLC) (now : ℤ) (key ct : String)
    (compute : Option Value) (netG netS : Nat → NetResult)
    (hnull : m.l1.get now (l1Key key ct) = some .null) :
    (mlcGet m now key compute ct netG netS).2.stats.l1_misses = m.stats.l1_misses + 1 ∧
    (mlcGet m now key compute ct netG netS).2.stats.l1_hits = m.stats.l1_hits ∧
    ((mlcGet m now key compute ct netG netS).1 =
        (mlcGet { m with l1 := m.l1.del (l1Key key ct) } now key compute ct netG netS).1 ∧
      (mlcGet m now key compute ct netG netS).2.stats =
        (mlcGet { m with l1 := m.l1.del (l1Key key ct) } now key compute ct netG netS).2.stats ∧
      (mlcGet m now key compute ct netG netS).2.l2 =
        (mlcGet { m with l1 := m.l1.del (l1Key key ct) } now key compute ct netG netS).2.l2) ∧
    (∀ data, m.l2.connected = true → m.l2.breaker.state = .CLOSED → netG 0 = .ok →
      storeGet m.l2.store (redisKey key ct) = some data → deserialize data = some .null →
      (mlcGet m now key compute ct netG netS).2.stats.l2_misses = m.stats.l2_misses + 1 ∧
      (compute = none → (mlcGet m now key compute ct netG netS).1 = .null) ∧
      (∀ w, compute = some w → (mlcGet m now key compute ct netG netS).1 = w ∧
        (mlcGet m now key compute ct netG netS).2.stats.compute_hits =
          m.stats.compute_hits + 1)) := by
  have hred : mlcGet m now key compute ct netG netS =
      mlcGetL2 { m with stats := m.stats.record_l1_miss } now key compute
        (ttlForType m.cfg ct) ct netG netS := by
    unfold mlcGet
    rw [hnull]
    rfl
  have hredDel : mlcGet { m with l1 := m.l1.del (l1Key key ct) } now key compute ct
        netG netS =
      mlcGetL2 { cfg := m.cfg, l1 := m.l1.del (l1Key key ct), l2 := m.l2,
                 stats := m.stats.record_l1_miss } now key compute
        (ttlForType m.cfg ct) ct netG netS := by
    unfold mlcGet
    dsimp only
    rw [L1Cache.get_del_self]
  refine ⟨?_, ?_, ?_, ?_⟩
  · rw [hred]
    exact ((mlcGetL2_stats_l1 _ now key compute (ttlForType m.cfg ct) ct netG netS).1).trans
      rfl
  · rw [hred]
    exact ((mlcGetL2_stats_l1 _ now key compute (ttlForType m.cfg ct) ct netG netS).2).trans
      rfl
  · rw [hred, hredDel]
    exact mlcGetL2_l1_indep m.cfg m.l1 (m.l1.del (l1Key key ct)) m.l2
      m.stats.record_l1_miss now key compute (ttlForType m.cfg ct) ct netG netS
  · intro data hconn hcb hnet hdata hdes
    have hretry := withRetry_first_ok m.cfg.retryCfg m.l2.breaker
      m.stats.record_l1_miss now netG hcb hnet
    have hrg : redisGet m.cfg m.l2 m.stats.record_l1_miss now key ct netG =
        (some Value.null, { m.l2 with breaker := m.l2.breaker.record_success now },
          m.stats.record_l1_miss) := by
      unfold redisGet
      rw [hconn]
      dsimp only
      rw [hretry]
      dsimp only
      rw [hdata]
      dsimp only
      rw [hdes, hconn]
      rfl
    have hfull : mlcGet m now key compute ct netG netS =
        mlcGetCompute
          { cfg := m.cfg, l1 := m.l1,
              l2 := { m.l2 with breaker := m.l2.breaker.record_success now },
              stats := m.stats.record_l1_miss.record_l2_miss } now key compute
          (ttlForType m.cfg ct) ct netS := by
      rw [hred]
      unfold mlcGetL2
      dsimp only
      rw [hrg]
      rfl
    obtain ⟨c1, c2, c3, c4, c5, c6⟩ := mlcGetCompute_spec
      { cfg := m.cfg, l1 := m.l1,
          l2 := { m.l2 with breaker := m.l2.breaker.record_success now },
          stats := m.stats.record_l1_miss.record_l2_miss } now key compute
      (ttlForType m.cfg ct) ct netS
    refine ⟨?_, ?_, ?_⟩
    · rw [hfull]
      exact c5.trans rfl
    · intro hc
      rw [hfull, c1, hc]
    · intro w hc
      subst hc
      refine ⟨by rw [hfull, c1], ?_⟩
      rw [hfull, c6]
      rfl

/-- L1 holding `None` under `default:k` and L2 holding the JSON bytes of
`null` for the same key (witness fixture). -/
def mlcNullFix : MLC :=
  { cfg := cfgEx,
    l1 := { maxsize := 10, ttl := 60, entries := [("default:k", .null, 60)] },
    l2 := { connected := true,
            store := [(redisKey "k" "default", [110, 117, 108, 108], 60)],
            breaker := CircuitBreaker.init 5 30 0 },
    stats := CacheStats.init }

/-- Closed witness for `none_value_treated_as_miss`: at `mlcNullFix` with a
compute function returning `7`, the call records an L1 miss and an L2 miss
and returns the computed `7`. -/
theorem none_value_treated_as_miss_witness :
    (mlcGet mlcNullFix 0 "k" (some (.int 7)) "default" netOk netOk).2.stats.l1_misses =
      CacheStats.init.l1_misses + 1 ∧
    (mlcGet mlcNullFix 0 "k" (some (.int 7)) "default" netOk netOk).2.stats.l2_misses =
      CacheStats.init.l2_misses + 1 ∧
    (mlcGet mlcNullFix 0 "k" (some (.int 7)) "default" netOk netOk).1 = .int 7 := by
  have h := none_value_treated_as_miss mlcNullFix 0 "k" "default" (some (.int 7))
    netOk netOk (by rfl)
  have h4 := h.2.2.2 [110, 117, 108, 108] rfl rfl rfl (by rfl) (by rfl)
  exact ⟨h.1, h4.1, (h4.2.2 (.int 7) rfl).1⟩

theorem foldl_del_entries :
    ∀ (ks : List String) (c : L1Cache),
      (ks.foldl (fun c k => c.del k) c).entries =
        c.entries.filter (fun e => !(decide (e.1 ∈ ks))) := by
  intro ks
  induction ks with
  | nil =>
    intro c
    simp
  | cons k ks ih =>
    intro c
    show (ks.foldl (fun c k => c.del k) (c.del k)).entries = _
    rw [ih (c.del k)]
    unfold L1Cache.del
    dsimp only
    rw [List.filter_filter]
    apply List.filter_congr
    intro e _
    by_cases h1 : e.1 = k <;> by_cases h2 : e.1 ∈ ks <;>
      simp [List.mem_cons, h1, h2, bne]

/-- Claim C7: `clear_pattern` removes from L1 exactly the live entries of the
requested category whose un-namespaced suffix matches the glob — every other
entry (other categories, non-matching keys, and entries already expired) is
left in place — and the returned count is the number of removed L1 entries
plus the count reported by the L2 pattern clear. -/
theorem clear_pattern_removes_exactly (m : MLC) (now : ℤ) (pattern ct : String)
    (hnd : (m.l1.entries.map (·.1)).Nodup) :
    (mlcClearPattern m now pattern ct).2.l1.entries =
      m.l1.entries.filter (fun e => !(decide (now < e.2.2) &&
        (strStartsWith e.1 (ct ++ ":") &&
          fnmatchStr (strDrop e.1 (ct ++ ":").length) pattern))) ∧
    (mlcClearPattern m now pattern ct).1 =
      (m.l1.entries.filter (fun e => decide (now < e.2.2) &&
        (strStartsWith e.1 (ct ++ ":") &&
          fnmatchStr (strDrop e.1 (ct ++ ":").length) pattern))).length +
        (redisClearPattern m.l2 pattern ct).1 ∧
    (mlcClearPattern m now pattern ct).2.l2 = (redisClearPattern m.l2 pattern ct).2 := by
  set sel : String × Value × ℤ → Bool := fun e => decide (now < e.2.2) &&
    (strStartsWith e.1 (ct ++ ":") &&
      fnmatchStr (strDrop e.1 (ct ++ ":").length) pattern) with hsel
  have hkeys : (m.l1.keysNow now).filter
      (fun k => strStartsWith k (ct ++ ":") &&
        fnmatchStr (strDrop k (ct ++ ":").length) pattern) =
      (m.l1.entries.filter sel).map (·.1) := by
    unfold L1Cache.keysNow
    rw [List.filter_map, List.filter_filter]
    congr 1
    apply List.filter_congr
    intro e _
    rw [hsel]
    dsimp only [Function.comp_apply]
    cases decide (now < e.2.2) <;>
      cases strStartsWith e.1 (ct ++ ":") <;>
      cases fnmatchStr (strDrop e.1 (ct ++ ":").length) pattern <;> rfl
  have hmem : ∀ e ∈ m.l1.entries,
      (e.1 ∈ (m.l1.entries.filter sel).map (·.1)) ↔ sel e = true := by
    intro e he
    constructor
    · intro hin
      rw [List.mem_map] at hin
      obtain ⟨e', he', hkey⟩ := hin
      rw [List.mem_filter] at he'
      have heq : e' = e := List.inj_on_of_nodup_map hnd he'.1 he hkey
      rw [← heq]
      exact he'.2
    · intro hse
      rw [List.mem_map]
      exact ⟨e, List.mem_filter.mpr ⟨he, hse⟩, rfl⟩
  refine ⟨?_, ?_, rfl⟩
  · show ((((m.l1.keysNow now).filter _).foldl (fun c k => c.del k) m.l1)).entries = _
    rw [hkeys, foldl_del_entries]
    apply List.filter_congr
    intro e he
    have hiff := hmem e he
    show (!(decide (e.1 ∈ (m.l1.entries.filter sel).map (·.1)))) = (!(sel e))
    congr 1
    rcases hse : sel e with _ | _
    · refine decide_eq_false ?_
      intro hin
      rw [hse] at hiff
      exact absurd (hiff.mp hin) (by simp)
    · refine decide_eq_true ?_
      rw [hse] at hiff
      exact hiff.mpr rfl
  · show (((m.l1.keysNow now).filter _).length + (redisClearPattern m.l2 pattern ct).1) = _
    rw [hkeys, List.length_map]

/-- Closed witness for `clear_pattern_removes_exactly`: three live L1 entries
— two in category `default`, of which only one matches `pattern_test_*`, and
one in category `kb` whose suffix would match — plus a connected L2 holding
one matching key.  Exactly the matching `default` entry is removed from L1
and the count is `1 + 1`. -/
theorem clear_pattern_removes_exactly_witness :
    (mlcClearPattern
      { cfg := cfgEx,
        l1 := { maxsize := 10, ttl := 60,
                entries := [("default:pattern_test_1", .int 1, 60),
                  ("default:other", .int 2, 60),
                  ("kb:pattern_test_2", .int 3, 60)] },
        l2 := { connected := true,
                store := [("voice_bot:default:pattern_test_9", [49], 60)],
                breaker := CircuitBreaker.init 5 30 0 },
        stats := CacheStats.init } 0 "pattern_test_*" "default").2.l1.entries =
      [("default:other", .int 2, 60), ("kb:pattern_test_2", .int 3, 60)] ∧
    (mlcClearPattern
      { cfg := cfgEx,
        l1 := { maxsize := 10, ttl := 60,
                entries := [("default:pattern_test_1", .int 1, 60),
                  ("default:other", .int 2, 60),
                  ("kb:pattern_test_2", .int 3, 60)] },
        l2 := { connected := true,
                store := [("voice_bot:default:pattern_test_9", [49], 60)],
                breaker := CircuitBreaker.init 5 30 0 },
        stats := CacheStats.init } 0 "pattern_test_*" "default").1 = 2 := by
  have h := clear_pattern_removes_exactly
    { cfg := cfgEx,
      l1 := { maxsize := 10, ttl := 60,
              entries := [("default:pattern_test_1", .int 1, 60),
                ("default:other", .int 2, 60),
                ("kb:pattern_test_2", .int 3, 60)] },
      l2 := { connected := true,
              store := [("voice_bot:default:pattern_test_9", [49], 60)],
              breaker := CircuitBreaker.init 5 30 0 },
      stats := CacheStats.init } 0 "pattern_test_*" "default" (by decide)
  refine ⟨?_, ?_⟩
  · rw [h.1]
    rfl
  · rw [h.2.1]
    rfl

end AiraCache
